import Mathlib

/-!
# ALAC decoder (`src/decoders/alac.c`): shallow embedding and checked properties

The embedding follows `alac.c` function by function.  The bit reader
(`bitstream.h`), the growable integer arrays (`array.h`), the PCM frame list
(`pcm.h`) and the record declarations of `alac.h` are not part of the
translated file; they are modelled from the specification and marked so.

Conventions.

* Integers are mathematical: `Nat` for the values of bit fields, `Int` for the
  `int` arguments of `ALACDecoder_init` (which may be negative) and for sample
  values.  The widths the translated file declares itself are kept: the
  `uint32_t` atom size of the container scan carries an explicit `% 2 ^ 32`,
  and the `int` of the loop counters is the reading `to_int` below.
* `frame_header.output_samples` is assigned `read_bits(bs, 32)` or the
  `int max_samples_per_frame` (alac.c:271-273); the header record keeps the
  value assigned.  Where `alac.c` uses the field it uses it as an `int`: it is
  compared with the `int` counters `i` and `j` (alac.c:136, 151, 210), handed
  to the `int sample_count` of `ALACDecoder_read_wasted_bits` (alac.c:178,
  300) and printed with `%d` (alac.c:321).  `to_int` is that reading: an
  assigned value from `2 ^ 31` on is a negative `int`.
* A C loop `for (i = 0; i < n; i++)` with an `int` counter and an `int` bound
  `n` runs `n.toNat` times: not at all when `n` is negative, and never more
  than `2 ^ 31 - 1` times.
* Every operation that touches the bit cursor returns the cursor it leaves
  behind together with its result, also when it fails.
* `alac.c` tests the result of no read.  A read that finds fewer bits than it
  was asked for is the failure `Truncated` of the bit reader (section 4.2 of
  the specification); it ends the call where it happens and is shown as
  `truncated`.  It is the reader's own exit, not a path of `alac.c`, whose
  readers of headers and wasted bits have `return OK` as their only exit.
* An access outside a buffer array is undefined in C; here it ends the call
  with `outOfBounds`.
-/

namespace ALAC

/-! ## Errors and status codes -/

/-- The ways a decode call can end without a frame.  `truncated` is the bit
reader running out of bits, `outOfBounds` an index outside a channel array or
outside the output array, `invalidSignature` the `ValueError` raised at the
end-of-frame check, `residualTODO` the `ValueError` raised at the end of the
compressed branch, `frameHeaderStatus` the `goto error` taken when the frame
header reader reports `ERROR`, and `mdatNotFound` the `ValueError` raised by
`ALACDecoder_init` when the container scan reports `ERROR`. -/
inductive ALACError where
  | truncated
  | outOfBounds
  | invalidSignature
  | residualTODO
  | frameHeaderStatus
  | mdatNotFound
  deriving DecidableEq, Repr

/-- The `status` enumeration returned by the helper functions of `alac.c`. -/
inductive status where
  | OK
  | ERROR
  deriving DecidableEq, Repr

/-! ## Bit reader -/

/-- Modelled from the spec: the BitReader cursor of section 4.2 (`Bitstream`
of `bitstream.h`, which is not in the translated file).  `consumed` is the
number of bits the cursor has passed since the start of the file and `rest`
holds the bits from the cursor to the end of the file, most significant bit of
each byte first. -/
structure Bitstream where
  consumed : Nat
  rest : List Bool
  deriving DecidableEq, Repr

/-- Value of a bit string read most significant bit first. -/
def bits_value (l : List Bool) : Nat :=
  l.foldl (fun acc b => 2 * acc + b.toNat) 0

/-- The unsigned field of `len` bits that starts `off` bits into `l`. -/
def field (l : List Bool) (off len : Nat) : Nat :=
  bits_value ((l.drop off).take len)

/-- Two's complement reading of a `width`-bit unsigned value. -/
def sign_extend (width v : Nat) : Int :=
  if width ≠ 0 ∧ 2 ^ (width - 1) ≤ v then (v : Int) - 2 ^ width else v

/-- The signed field of `len` bits that starts `off` bits into `l`. -/
def signed_field (l : List Bool) (off len : Nat) : Int :=
  sign_extend len (field l off len)

/-- The `width` bits of `n`, most significant first: how a number is laid out
in a stream. -/
def nat_bits : Nat → Nat → List Bool
  | 0, _ => []
  | width + 1, n => (n / 2 ^ width % 2 == 1) :: nat_bits width n

/-- Modelled from the spec: `read_bits(width)` of section 4.2 consumes `width`
bits most significant bit first and returns them as an unsigned integer; it
fails with `Truncated`, leaving the cursor where it was, when fewer bits
remain (`read_bits` is defined in `bitstream.h`, not in the translated
file). -/
def read_bits (bs : Bitstream) (count : Nat) : Except ALACError (Nat × Bitstream) :=
  if count ≤ bs.rest.length then
    .ok (bits_value (bs.rest.take count),
         { consumed := bs.consumed + count, rest := bs.rest.drop count })
  else
    .error .truncated

/-- Modelled from the spec: `read_signed_bits(width)` of section 4.2 reads as
`read_bits` does and sign-extends the value as two's complement. -/
def read_signed_bits (bs : Bitstream) (count : Nat) : Except ALACError (Int × Bitstream) :=
  match read_bits bs count with
  | .ok (v, bs1) => .ok (sign_extend count v, bs1)
  | .error e => .error e

/-- Modelled from the spec: `align_to_byte()` of section 4.2 (`byte_align_r`)
discards the unread bits of a partially consumed byte, so that the cursor sits
on a byte boundary. -/
def byte_align_r (bs : Bitstream) : Bitstream :=
  { consumed := bs.consumed + (8 - bs.consumed % 8) % 8,
    rest := bs.rest.drop ((8 - bs.consumed % 8) % 8) }

/-- The value an `int` (32 bits, two's complement) holds after it is assigned
the integer `v`: `v` itself from `-2 ^ 31` to `2 ^ 31 - 1`, and otherwise the
value in that range with the same low 32 bits. -/
def to_int (v : Int) : Int :=
  (v + 2 ^ 31) % 2 ^ 32 - 2 ^ 31

/-! ## Frame header (`ALACDecoder_read_frame_header`) -/

/-- Modelled from the spec: the FrameHeader record of section 3
(`struct alac_frame_header` is declared in `alac.h`, not in the translated
file).  Each field holds the value the parser assigns to it. -/
structure alac_frame_header where
  channels : Nat
  has_size : Nat
  wasted_bits : Nat
  is_not_compressed : Nat
  output_samples : Int
  deriving DecidableEq, Repr

/-- `ALACDecoder_read_frame_header` (alac.c:260-277).  The result pairs what
the call yields with the cursor it leaves; the `status` it returns is `OK` on
every path of the source.  The `error` lines are the bit reader's own failure
ending the call inside a read; the source tests no read. -/
def ALACDecoder_read_frame_header (bs : Bitstream) (max_samples_per_frame : Int) :
    Except ALACError (status × alac_frame_header) × Bitstream :=
  match read_bits bs 3 with
  | .error e => (.error e, bs)
  | .ok (channels, bs1) =>
  match read_bits bs1 16 with
  | .error e => (.error e, bs1)
  | .ok (_, bs2) =>
  match read_bits bs2 1 with
  | .error e => (.error e, bs2)
  | .ok (has_size, bs3) =>
  match read_bits bs3 2 with
  | .error e => (.error e, bs3)
  | .ok (wasted_bits, bs4) =>
  match read_bits bs4 1 with
  | .error e => (.error e, bs4)
  | .ok (is_not_compressed, bs5) =>
  if has_size ≠ 0 then
    match read_bits bs5 32 with
    | .error e => (.error e, bs5)
    | .ok (output_samples, bs6) =>
      (.ok (.OK, { channels := channels + 1, has_size := has_size,
                   wasted_bits := wasted_bits,
                   is_not_compressed := is_not_compressed,
                   output_samples := (output_samples : Int) }), bs6)
  else
    (.ok (.OK, { channels := channels + 1, has_size := has_size,
                 wasted_bits := wasted_bits,
                 is_not_compressed := is_not_compressed,
                 output_samples := max_samples_per_frame }), bs5)

/-- A 55-bit frame header: 2 channels, `has_size` set, wasted-bits code 2, not
compressed, explicit size 5. -/
def header_example : Bitstream :=
  { consumed := 0,
    rest := nat_bits 3 1 ++ nat_bits 16 0 ++ nat_bits 1 1 ++ nat_bits 2 2 ++
      nat_bits 1 1 ++ nat_bits 32 5 }

/-- A subframe header with prediction type 1, quantitization 9, rice modifier
4 and two coefficients, -2 and 3. -/
def subframe_example : Bitstream :=
  { consumed := 0,
    rest := nat_bits 4 1 ++ nat_bits 4 9 ++ nat_bits 3 4 ++ nat_bits 5 2 ++
      nat_bits 16 65534 ++ nat_bits 16 3 }

/-! ## Integer arrays -/

/-- Modelled from the spec: a growable per-channel buffer (`struct i_array`
of `array.h`, not in the translated file); its `size` is the list length. -/
abbrev i_array := List Int

/-- Modelled from the spec: the growable arrays indexed by channel number of
sections 3 and 9 (`struct ia_array` of `array.h`). -/
abbrev ia_array := List (List Int)

/-- Modelled from the spec: `iaa_init(array, total, size)` creates `total`
empty buffers. -/
def iaa_init (total : Int) : ia_array :=
  List.replicate total.toNat []

/-- Modelled from the spec: `iaa_reset` empties every buffer and keeps their
number ("reset every frame", section 3). -/
def iaa_reset (a : ia_array) : ia_array :=
  a.map (fun _ => [])

/-- Modelled from the spec: `ia_append(iaa_getitem(array, index), value)`
appends `value` to buffer `index`; an index past the last buffer is reported
as `none`. -/
def iaa_append (a : ia_array) (index : Nat) (value : Int) : Option ia_array :=
  match a[index]? with
  | some buffer => some (a.set index (buffer ++ [value]))
  | none => none

/-! ## Decoder state and output frame -/

/-- The fields of `decoders_ALACDecoder` that `alac.c` reads and writes: the
nine `int` arguments of `ALACDecoder_init`, the bit cursor and the two buffer
arrays. -/
structure decoders_ALACDecoder where
  bitstream : Bitstream
  sample_rate : Int
  channels : Int
  channel_mask : Int
  bits_per_sample : Int
  total_frames : Int
  max_samples_per_frame : Int
  history_mult : Int
  initial_history : Int
  kmodifier : Int
  samples : ia_array
  wasted_bits_samples : ia_array
  deriving DecidableEq, Repr

/-- Modelled from the spec: the output PCM frame of section 3
(`pcm_FrameList` of `pcm.h`), with the fields `ALACDecoder_read` assigns. -/
structure pcm_FrameList where
  frames : Int
  channels : Int
  bits_per_sample : Int
  samples_length : Int
  samples : List Int
  deriving DecidableEq, Repr

/-- The buffers of a decoder are the ones `ALACDecoder_init` creates: one per
configured channel, in both arrays. -/
def decoders_ALACDecoder.WellFormed (self : decoders_ALACDecoder) : Prop :=
  self.samples.length = self.channels.toNat ∧
  self.wasted_bits_samples.length = self.channels.toNat

/-! ## Uncompressed samples (alac.c:149-157) -/

/-- The inner loop `for (channel = 0; channel < self->channels; channel++)`
of the uncompressed branch, `remaining` iterations starting at `channel`. -/
def read_uncompressed_channels (bits_per_sample : Nat) :
    Nat → Nat → Bitstream → ia_array → Except ALACError Unit × Bitstream × ia_array
  | 0, _, bs, samples => (.ok (), bs, samples)
  | remaining + 1, channel, bs, samples =>
    match read_signed_bits bs bits_per_sample with
    | .error e => (.error e, bs, samples)
    | .ok (v, bs1) =>
      match iaa_append samples channel v with
      | none => (.error .outOfBounds, bs1, samples)
      | some samples1 =>
        read_uncompressed_channels bits_per_sample remaining (channel + 1) bs1 samples1

/-- The outer loop `for (i = 0; i < frame_header.output_samples; i++)` of the
uncompressed branch, `remaining` iterations. -/
def read_uncompressed_samples (channels bits_per_sample : Nat) :
    Nat → Bitstream → ia_array → Except ALACError Unit × Bitstream × ia_array
  | 0, bs, samples => (.ok (), bs, samples)
  | remaining + 1, bs, samples =>
    match read_uncompressed_channels bits_per_sample channels 0 bs samples with
    | (.error e, bs1, samples1) => (.error e, bs1, samples1)
    | (.ok (), bs1, samples1) =>
      read_uncompressed_samples channels bits_per_sample remaining bs1 samples1

/-- Modelled from the spec: the SubframeHeader record of section 3
(`struct alac_subframe_header` of `alac.h`). -/
structure alac_subframe_header where
  prediction_type : Nat
  prediction_quantitization : Nat
  rice_modifier : Nat
  predictor_coef_table : i_array
  deriving DecidableEq, Repr

/-- The coefficient loop `for (i = 0; i < predictor_coef_num; i++)` of
`ALACDecoder_read_subframe_header`, `remaining` iterations. -/
def read_predictor_coefs :
    Nat → Bitstream → i_array → Except ALACError i_array × Bitstream
  | 0, bs, table => (.ok table, bs)
  | remaining + 1, bs, table =>
    match read_signed_bits bs 16 with
    | .error e => (.error e, bs)
    | .ok (v, bs1) => read_predictor_coefs remaining bs1 (table ++ [v])

/-- `ALACDecoder_read_subframe_header` (alac.c:279-296).  The `status` it
returns is `OK` on every path of the source. -/
def ALACDecoder_read_subframe_header (bs : Bitstream) :
    Except ALACError (status × alac_subframe_header) × Bitstream :=
  match read_bits bs 4 with
  | .error e => (.error e, bs)
  | .ok (prediction_type, bs1) =>
  match read_bits bs1 4 with
  | .error e => (.error e, bs1)
  | .ok (prediction_quantitization, bs2) =>
  match read_bits bs2 3 with
  | .error e => (.error e, bs2)
  | .ok (rice_modifier, bs3) =>
  match read_bits bs3 5 with
  | .error e => (.error e, bs3)
  | .ok (predictor_coef_num, bs4) =>
  match read_predictor_coefs predictor_coef_num bs4 [] with
  | (.error e, bs5) => (.error e, bs5)
  | (.ok table, bs5) =>
    (.ok (.OK, { prediction_type := prediction_type,
                 prediction_quantitization := prediction_quantitization,
                 rice_modifier := rice_modifier,
                 predictor_coef_table := table }), bs5)

/-- The loop `for (i = 0; i < self->channels; i++)` of the compressed branch
(alac.c:167-171); the status of each header read is not looked at. -/
def read_subframe_headers :
    Nat → Bitstream → List alac_subframe_header →
      Except ALACError (List alac_subframe_header) × Bitstream
  | 0, bs, headers => (.ok headers, bs)
  | remaining + 1, bs, headers =>
    match ALACDecoder_read_subframe_header bs with
    | (.error e, bs1) => (.error e, bs1)
    | (.ok (_, header), bs1) => read_subframe_headers remaining bs1 (headers ++ [header])

/-! ## Wasted bits (`ALACDecoder_read_wasted_bits`) -/

/-- The inner loop `for (channel = 0; channel < channels; channel++)` of
`ALACDecoder_read_wasted_bits`. -/
def read_wasted_bits_channels (wasted_bits_size : Nat) :
    Nat → Nat → Bitstream → ia_array → Except ALACError Unit × Bitstream × ia_array
  | 0, _, bs, wasted => (.ok (), bs, wasted)
  | remaining + 1, channel, bs, wasted =>
    match read_bits bs wasted_bits_size with
    | .error e => (.error e, bs, wasted)
    | .ok (v, bs1) =>
      match iaa_append wasted channel (v : Int) with
      | none => (.error .outOfBounds, bs1, wasted)
      | some wasted1 =>
        read_wasted_bits_channels wasted_bits_size remaining (channel + 1) bs1 wasted1

/-- The outer loop `for (i = 0; i < sample_count; i++)` of
`ALACDecoder_read_wasted_bits`. -/
def read_wasted_bits_samples (channels wasted_bits_size : Nat) :
    Nat → Bitstream → ia_array → Except ALACError Unit × Bitstream × ia_array
  | 0, bs, wasted => (.ok (), bs, wasted)
  | remaining + 1, bs, wasted =>
    match read_wasted_bits_channels wasted_bits_size channels 0 bs wasted with
    | (.error e, bs1, wasted1) => (.error e, bs1, wasted1)
    | (.ok (), bs1, wasted1) =>
      read_wasted_bits_samples channels wasted_bits_size remaining bs1 wasted1

/-- `ALACDecoder_read_wasted_bits` (alac.c:298-314). -/
def ALACDecoder_read_wasted_bits (bs : Bitstream) (wasted_bits_samples : ia_array)
    (sample_count : Int) (channels : Nat) (wasted_bits_size : Nat) :
    Except ALACError status × Bitstream × ia_array :=
  match read_wasted_bits_samples channels wasted_bits_size sample_count.toNat bs
      wasted_bits_samples with
  | (.error e, bs1, wasted1) => (.error e, bs1, wasted1)
  | (.ok (), bs1, wasted1) => (.ok .OK, bs1, wasted1)

/-! ## Frame assembly (label `write_frame`, alac.c:196-222) -/

/-- The inner loop
`for (i = channel, j = 0; j < frame_header.output_samples; i += self->channels, j++)`
storing `ia_getitem(channel_data, j)` at `framelist->samples[i]`; `remaining`
iterations from the given `i` and `j`.  A read past the end of the channel
buffer or a store past the end of the output array is reported as `none`. -/
def interleave_channel (channel_data : i_array) (channels : Nat) :
    Nat → Nat → Nat → List Int → Option (List Int)
  | 0, _, _, out => some out
  | remaining + 1, i, j, out =>
    match channel_data[j]? with
    | none => none
    | some v =>
      if i < out.length then
        interleave_channel channel_data channels remaining (i + channels) (j + 1) (out.set i v)
      else none

/-- The outer loop `for (channel = 0; channel < self->channels; channel++)`
of the frame assembly, `remaining` iterations starting at `channel`. -/
def interleave (samples : ia_array) (channels output_samples : Nat) :
    Nat → Nat → List Int → Option (List Int)
  | 0, _, out => some out
  | remaining + 1, channel, out =>
    match interleave_channel (samples.getD channel []) channels output_samples channel 0 out with
    | none => none
    | some out1 => interleave samples channels output_samples remaining (channel + 1) out1

/-- The code from the label `write_frame` to `return (PyObject*)framelist`
(alac.c:196-222), given `frame_header.output_samples` as the `int` the counter
`j` is compared with.  The blank
frame list comes from the Python runtime, which is outside this embedding: the
lookup of `audiotools.pcm` is taken to succeed, and the cells `realloc` hands
out start as `0`. -/
def write_frame (self : decoders_ALACDecoder) (output_samples : Int) :
    Except ALACError pcm_FrameList × decoders_ALACDecoder :=
  match self.samples[0]? with
  | none => (.error .outOfBounds, self)
  | some channel0 =>
    let frames : Int := (channel0.length : Int)
    let samples_length : Int := frames * self.channels
    match interleave self.samples self.channels.toNat output_samples.toNat
        self.channels.toNat 0 (List.replicate samples_length.toNat 0) with
    | none => (.error .outOfBounds, self)
    | some out =>
      (.ok { frames := frames, channels := self.channels,
             bits_per_sample := self.bits_per_sample,
             samples_length := samples_length, samples := out },
       { self with total_frames := self.total_frames - frames })

/-! ## One decode call (`ALACDecoder_read`) -/

/-- The end-of-frame check and what follows it (alac.c:187-222): three bits
that must read 7, byte alignment, then `write_frame`. -/
def read_signature (self : decoders_ALACDecoder) (output_samples : Int) :
    Except ALACError pcm_FrameList × decoders_ALACDecoder :=
  match read_bits self.bitstream 3 with
  | .error e => (.error e, self)
  | .ok (signature, bs1) =>
    if signature ≠ 7 then
      (.error .invalidSignature, { self with bitstream := bs1 })
    else
      write_frame { self with bitstream := byte_align_r bs1 } output_samples

/-- The compressed branch of `ALACDecoder_read` (alac.c:158-185): interlacing
parameters, one subframe header per configured channel, the wasted-bits block
when the header announces one, then the `ValueError` of the unwritten residual
decoder. -/
def read_compressed (self : decoders_ALACDecoder) (frame_header : alac_frame_header) :
    Except ALACError pcm_FrameList × decoders_ALACDecoder :=
  match read_bits self.bitstream 8 with
  | .error e => (.error e, self)
  | .ok (_, bs1) =>
  match read_bits bs1 8 with
  | .error e => (.error e, { self with bitstream := bs1 })
  | .ok (_, bs2) =>
  match read_subframe_headers self.channels.toNat bs2 [] with
  | (.error e, bs3) => (.error e, { self with bitstream := bs3 })
  | (.ok _, bs3) =>
    if frame_header.wasted_bits > 0 then
      match ALACDecoder_read_wasted_bits bs3 self.wasted_bits_samples
          (to_int frame_header.output_samples) frame_header.channels
          (frame_header.wasted_bits * 8) with
      | (.error e, bs4, wasted) =>
        (.error e, { self with bitstream := bs4, wasted_bits_samples := wasted })
      | (.ok _, bs4, wasted) =>
        (.error .residualTODO, { self with bitstream := bs4, wasted_bits_samples := wasted })
    else
      (.error .residualTODO, { self with bitstream := bs3 })

/-- `ALACDecoder_read` (alac.c:123-230): the frame or the error the call ends
with, and the decoder it leaves.  `frame_header.output_samples` bounds the
`int` counters of the loops and is read as an `int` there. -/
def ALACDecoder_read (self : decoders_ALACDecoder) :
    Except ALACError pcm_FrameList × decoders_ALACDecoder :=
  let self0 := { self with samples := iaa_reset self.samples }
  if self0.total_frames < 1 then
    write_frame self0 0
  else
    match ALACDecoder_read_frame_header self0.bitstream self0.max_samples_per_frame with
    | (.error e, bs1) => (.error e, { self0 with bitstream := bs1 })
    | (.ok (.ERROR, _), bs1) => (.error .frameHeaderStatus, { self0 with bitstream := bs1 })
    | (.ok (.OK, frame_header), bs1) =>
      let self1 := { self0 with bitstream := bs1 }
      if frame_header.is_not_compressed ≠ 0 then
        match read_uncompressed_samples self1.channels.toNat self1.bits_per_sample.toNat
            (to_int frame_header.output_samples).toNat self1.bitstream self1.samples with
        | (.error e, bs2, samples2) =>
          (.error e, { self1 with bitstream := bs2, samples := samples2 })
        | (.ok (), bs2, samples2) =>
          read_signature { self1 with bitstream := bs2, samples := samples2 }
            (to_int frame_header.output_samples)
      else
        read_compressed self1 frame_header

/-! ## Container scan (`ALACDecoder_seek_mdat`) and construction -/

/-- Modelled from the spec: `fseek(file, offset, SEEK_CUR)` with a forward
byte offset, on a cursor that sits on a byte boundary (the container scan
reads whole 32-bit words from the start of the file).  Seeking past the end of
the file is allowed and leaves nothing to read. -/
def fseek_cur (bs : Bitstream) (offset : Nat) : Bitstream :=
  { consumed := bs.consumed + 8 * offset, rest := bs.rest.drop (8 * offset) }

/-- The `while (i < file_stat.st_size)` loop of `ALACDecoder_seek_mdat`
(alac.c:248-255).  `atom_size` is a `uint32_t`, so `atom_size - 8` is taken
modulo `2 ^ 32`; the `long` that `fseek` receives is 64 bits wide, so that
value is a forward offset.  Every pass that continues has consumed 64 bits,
which bounds the number of passes. -/
def seek_mdat_loop (st_size : Nat) (i : Nat) (bs : Bitstream) :
    Except ALACError status × Bitstream :=
  if i < st_size then
    match h1 : read_bits bs 32 with
    | .error e => (.error e, bs)
    | .ok (atom_size, bs1) =>
      match h2 : read_bits bs1 32 with
      | .error e => (.error e, bs1)
      | .ok (atom_type, bs2) =>
        if atom_type = 0x6D646174 then (.ok .OK, bs2)
        else
          seek_mdat_loop st_size (i + atom_size)
            (fseek_cur bs2 ((atom_size + 2 ^ 32 - 8) % 2 ^ 32))
  else
    (.ok .ERROR, bs)
termination_by bs.rest.length
decreasing_by
  simp only [read_bits] at h1 h2
  split at h1
  · split at h2
    · simp only [Except.ok.injEq, Prod.mk.injEq] at h1 h2
      obtain ⟨-, rfl⟩ := h1
      obtain ⟨-, rfl⟩ := h2
      simp only [fseek_cur, List.length_drop]
      omega
    · simp at h2
  · simp at h1

/-- `ALACDecoder_seek_mdat` (alac.c:238-258).  `stat` is taken to succeed on
the file that was just opened, and `st_size` is the length of the file in
bytes. -/
def ALACDecoder_seek_mdat (self : decoders_ALACDecoder) :
    Except ALACError status × decoders_ALACDecoder :=
  match seek_mdat_loop ((self.bitstream.consumed + self.bitstream.rest.length) / 8) 0
      self.bitstream with
  | (r, bs1) => (r, { self with bitstream := bs1 })

/-- An atom of the container as section 6 lays it out: a 32-bit big-endian
size, a 4-byte type code and the payload, given as bits. -/
structure Atom where
  size : Nat
  type : Nat
  payload : List Bool
  deriving DecidableEq, Repr

/-- The bits of an atom in file order. -/
def Atom.bits (a : Atom) : List Bool :=
  nat_bits 32 a.size ++ (nat_bits 32 a.type ++ a.payload)

/-- The bits of a sequence of atoms in file order. -/
def container_bits : List Atom → List Bool
  | [] => []
  | a :: l => a.bits ++ container_bits l

/-- The sum of the sizes the atoms declare, in bytes. -/
def atoms_size : List Atom → Nat
  | [] => 0
  | a :: l => a.size + atoms_size l

/-- An atom the scan steps over: it declares a size of at least 8 bytes that
fits the 32-bit field and equals its real extent, and its type is a 32-bit
code other than `mdat`. -/
def Atom.Skippable (a : Atom) : Prop :=
  8 ≤ a.size ∧ a.size < 2 ^ 32 ∧ a.type < 2 ^ 32 ∧ a.type ≠ 0x6D646174 ∧
  a.payload.length = 8 * (a.size - 8)

instance (a : Atom) : Decidable a.Skippable := by
  unfold Atom.Skippable
  infer_instance

/-- A `free` atom of 16 bytes. -/
def free_atom : Atom :=
  { size := 16, type := 0x66726565, payload := List.replicate 64 false }

/-- Modelled from the spec: `bs_open` puts the cursor at the start of the
file, whose content is given as bits. -/
def bs_open (file : List Bool) : Bitstream :=
  { consumed := 0, rest := file }

/-- `ALACDecoder_init` (alac.c:23-80) after argument parsing and `fopen`: the
two buffer arrays are created, the bit reader is opened on the file and the
cursor is moved behind the `mdat` atom header. -/
def ALACDecoder_init (file : List Bool)
    (sample_rate channels channel_mask bits_per_sample total_frames
      max_samples_per_frame history_mult initial_history kmodifier : Int) :
    Except ALACError decoders_ALACDecoder :=
  let self : decoders_ALACDecoder :=
    { bitstream := bs_open file,
      sample_rate := sample_rate, channels := channels,
      channel_mask := channel_mask, bits_per_sample := bits_per_sample,
      total_frames := total_frames,
      max_samples_per_frame := max_samples_per_frame,
      history_mult := history_mult, initial_history := initial_history,
      kmodifier := kmodifier,
      samples := iaa_init channels,
      wasted_bits_samples := iaa_init channels }
  match ALACDecoder_seek_mdat self with
  | (.error e, _) => .error e
  | (.ok .ERROR, _) => .error .mdatNotFound
  | (.ok .OK, self1) => .ok self1

/-! ## The layout of a frame in the stream -/

/-- The value `frame_header.output_samples` holds when a call of
`ALACDecoder_read` reaches the frame assembly: 0 as set at alac.c:139, or what
`ALACDecoder_read_frame_header` stored when the call read a header. -/
def frame_output_samples (self : decoders_ALACDecoder) : Int :=
  if self.total_frames < 1 then 0
  else
    match ALACDecoder_read_frame_header self.bitstream self.max_samples_per_frame with
    | (.ok (_, frame_header), _) => frame_header.output_samples
    | (.error _, _) => 0

/-- Length in bits of the frame header at the cursor: 55 with the explicit
size, 23 without. -/
def frame_header_bits (self : decoders_ALACDecoder) : Nat :=
  if field self.bitstream.rest 19 1 = 1 then 55 else 23

/-- The sample count the frame header at the cursor announces, as the loops of
`ALACDecoder_read` see it: the explicit 32-bit size when `has_size` is set,
the configured `max_samples_per_frame` otherwise, read as an `int`. -/
def frame_header_samples (self : decoders_ALACDecoder) : Int :=
  to_int (if field self.bitstream.rest 19 1 = 1 then (field self.bitstream.rest 23 32 : Int)
    else self.max_samples_per_frame)

/-- Length in bits of the sample data of an uncompressed frame at the cursor:
one `bits_per_sample`-wide value per configured channel and sample position. -/
def frame_data_bits (self : decoders_ALACDecoder) : Nat :=
  (frame_header_samples self).toNat * (self.channels.toNat * self.bits_per_sample.toNat)

/-- The `k`-th signed value of the sample data of the frame at the cursor. -/
def frame_value (self : decoders_ALACDecoder) (k : Nat) : Int :=
  signed_field self.bitstream.rest
    (frame_header_bits self + k * self.bits_per_sample.toNat) self.bits_per_sample.toNat

/-- The three bits that follow the sample data of an uncompressed frame. -/
def frame_signature (self : decoders_ALACDecoder) : Nat :=
  field self.bitstream.rest (frame_header_bits self + frame_data_bits self) 3

/-- The decoder still expects frames, and the stream holds at its cursor a
frame header with the `is_not_compressed` bit set, the sample data that header
and the configuration announce, and three more bits. -/
def FrameInStream (self : decoders_ALACDecoder) : Prop :=
  1 ≤ self.total_frames ∧ field self.bitstream.rest 22 1 = 1 ∧
  frame_header_bits self + frame_data_bits self + 3 ≤ self.bitstream.rest.length

/-- The cursor of the decoder is at an uncompressed frame: the configured
sample width is a width (not negative) and the frame is in the stream. -/
def AtUncompressedFrame (self : decoders_ALACDecoder) : Prop :=
  0 ≤ self.bits_per_sample ∧ FrameInStream self

instance (self : decoders_ALACDecoder) : Decidable self.WellFormed := by
  unfold decoders_ALACDecoder.WellFormed
  infer_instance

instance (self : decoders_ALACDecoder) : Decidable (FrameInStream self) := by
  unfold FrameInStream
  infer_instance

instance (self : decoders_ALACDecoder) : Decidable (AtUncompressedFrame self) := by
  unfold AtUncompressedFrame
  infer_instance

/-- The decoder after `k` successive calls of `ALACDecoder_read`. -/
def after_reads : Nat → decoders_ALACDecoder → decoders_ALACDecoder
  | 0, self => self
  | k + 1, self => after_reads k (ALACDecoder_read self).2

/-- An uncompressed stereo frame of 16-bit samples with the explicit size 2 and
the sample values 1, -1, 3, -32768, closed by the signature and padded to a
byte boundary. -/
def frame_example : Bitstream :=
  { consumed := 0,
    rest := nat_bits 3 1 ++ nat_bits 16 0 ++ nat_bits 1 1 ++ nat_bits 2 0 ++
      nat_bits 1 1 ++ nat_bits 32 2 ++
      nat_bits 16 1 ++ nat_bits 16 65535 ++ nat_bits 16 3 ++ nat_bits 16 32768 ++
      nat_bits 3 7 ++ nat_bits 6 0 }

/-- The same frame with the three bits after the sample data reading 5. -/
def frame_example_bad_signature : Bitstream :=
  { consumed := 0,
    rest := nat_bits 3 1 ++ nat_bits 16 0 ++ nat_bits 1 1 ++ nat_bits 2 0 ++
      nat_bits 1 1 ++ nat_bits 32 2 ++
      nat_bits 16 1 ++ nat_bits 16 65535 ++ nat_bits 16 3 ++ nat_bits 16 32768 ++
      nat_bits 3 5 ++ nat_bits 6 0 }

/-- Four 8-bit fields holding 1, 2, 3, 4, followed by one more byte. -/
def wasted_example : Bitstream :=
  { consumed := 0,
    rest := nat_bits 8 1 ++ nat_bits 8 2 ++ nat_bits 8 3 ++ nat_bits 8 4 ++ nat_bits 8 255 }

/-- A compressed stereo frame as far as `ALACDecoder_read` reads it: a header
with explicit size 1 and wasted-bits code 1, the two interlacing bytes, two
subframe headers without coefficients, and one wasted-bits byte per channel
holding `a` and `b`. -/
def compressed_frame (a b : Nat) : List Bool :=
  nat_bits 3 1 ++ nat_bits 16 0 ++ nat_bits 1 1 ++ nat_bits 2 1 ++ nat_bits 1 0 ++
    nat_bits 32 1 ++ nat_bits 8 2 ++ nat_bits 8 1 ++ nat_bits 16 0 ++ nat_bits 16 0 ++
    nat_bits 8 a ++ nat_bits 8 b

/-- Two such frames one after the other, with wasted bits 1, 2 and 3, 4. -/
def two_compressed_frames : Bitstream :=
  { consumed := 0, rest := compressed_frame 1 2 ++ compressed_frame 3 4 }

/-- A compressed frame for a one-channel decoder whose header announces two
channels: explicit size 1, wasted-bits code 1, the two interlacing bytes, one
subframe header without coefficients, and two wasted-bits bytes, 17 and 34. -/
def mono_frame_stereo_header : Bitstream :=
  { consumed := 0,
    rest := nat_bits 3 1 ++ nat_bits 16 0 ++ nat_bits 1 1 ++ nat_bits 2 1 ++ nat_bits 1 0 ++
      nat_bits 32 1 ++ nat_bits 8 2 ++ nat_bits 8 1 ++ nat_bits 16 0 ++
      nat_bits 8 17 ++ nat_bits 8 34 }

/-- The 23 bits of a frame header that announces an uncompressed frame: the
channel field `ch` (3 bits), the reserved bits `res` (16 bits), the `has_size`
bit `hs`, the wasted-bits code `wb` (2 bits) and the `is_not_compressed` bit
set. -/
def uncompressed_header (ch res : List Bool) (hs : Bool) (wb : List Bool) : List Bool :=
  ch ++ (res ++ (hs :: (wb ++ [true])))

/-- The decoder `self` with its cursor `pos` bits into a file whose remaining
bits are `bits`. -/
def with_stream (self : decoders_ALACDecoder) (pos : Nat) (bits : List Bool) :
    decoders_ALACDecoder :=
  { self with bitstream := { consumed := pos, rest := bits } }

/-- A container without `mdat`: one `free` atom that declares the size 0 and
carries 8 bytes. -/
def zero_size_container : List Atom :=
  [{ size := 0, type := 0x66726565, payload := List.replicate 64 false }]

/-- A file with a `free` atom that declares the size 4, followed by an `mdat`
atom of 16 bytes. -/
def small_size_file : List Bool :=
  nat_bits 32 4 ++ (nat_bits 32 0x66726565 ++
    (nat_bits 32 16 ++ (nat_bits 32 0x6D646174 ++ nat_bits 64 0)))

/-- A file with a `free` atom that declares the size 4, then `2 ^ 32 - 4`
zero bytes, then an `mdat` atom of 16 bytes. -/
def far_mdat_file : List Bool :=
  nat_bits 32 4 ++ (nat_bits 32 0x66726565 ++
    (List.replicate (8 * 4294967292) false ++
      (nat_bits 32 16 ++ (nat_bits 32 0x6D646174 ++ nat_bits 64 0))))

/-- What follows the first 23 header bits in `frame_example`: the explicit
size 2, four 16-bit sample values, the signature and padding. -/
def frame_example_payload : List Bool :=
  nat_bits 32 2 ++ nat_bits 16 1 ++ nat_bits 16 65535 ++ nat_bits 16 3 ++
    nat_bits 16 32768 ++ nat_bits 3 7 ++ nat_bits 6 0

/-- A decoder as `ALACDecoder_init` leaves it on the given cursor, for stereo
material at 44100 Hz with the usual tuning constants. -/
def decoder_on (bs : Bitstream)
    (channels bits_per_sample total_frames max_samples_per_frame : Int) :
    decoders_ALACDecoder :=
  { bitstream := bs, sample_rate := 44100, channels := channels, channel_mask := 3,
    bits_per_sample := bits_per_sample, total_frames := total_frames,
    max_samples_per_frame := max_samples_per_frame,
    history_mult := 40, initial_history := 10, kmodifier := 14,
    samples := iaa_init channels, wasted_bits_samples := iaa_init channels }

/-- The container `[free, size 16][mdat, size 1000]` followed by two payload
bytes. -/
def free_mdat_file : List Bool :=
  container_bits [free_atom] ++
    (nat_bits 32 1000 ++ (nat_bits 32 0x6D646174 ++ nat_bits 16 0xABCD))

/-! ## Bit reader lemmas -/

theorem bits_value_append_singleton (l : List Bool) (b : Bool) :
    bits_value (l ++ [b]) = 2 * bits_value l + b.toNat := by
  simp [bits_value, List.foldl_append]

theorem bits_value_lt (l : List Bool) : bits_value l < 2 ^ l.length := by
  induction l using List.reverseRecOn with
  | nil => simp [bits_value]
  | append_singleton l b ih =>
    rw [bits_value_append_singleton, List.length_append, List.length_singleton, pow_succ]
    cases b <;> simp <;> omega

theorem field_lt (l : List Bool) (off len : Nat) : field l off len < 2 ^ len := by
  unfold field
  calc bits_value ((l.drop off).take len)
      < 2 ^ ((l.drop off).take len).length := bits_value_lt _
    _ ≤ 2 ^ len := Nat.pow_le_pow_right (by decide) (by simp)

theorem read_bits_ok (bs : Bitstream) (count : Nat) (h : count ≤ bs.rest.length) :
    read_bits bs count =
      .ok (field bs.rest 0 count,
           { consumed := bs.consumed + count, rest := bs.rest.drop count }) := by
  simp [read_bits, h, field]

theorem read_bits_truncated (bs : Bitstream) (count : Nat) (h : bs.rest.length < count) :
    read_bits bs count = .error .truncated := by
  simp [read_bits, Nat.not_le.mpr h]

theorem field_drop (l : List Bool) (k off len : Nat) :
    field (l.drop k) off len = field l (k + off) len := by
  simp [field, List.drop_drop, Nat.add_comm]

theorem signed_field_drop (l : List Bool) (k off len : Nat) :
    signed_field (l.drop k) off len = signed_field l (k + off) len := by
  simp [signed_field, field_drop]

theorem read_signed_bits_ok (bs : Bitstream) (count : Nat) (h : count ≤ bs.rest.length) :
    read_signed_bits bs count =
      .ok (signed_field bs.rest 0 count,
           { consumed := bs.consumed + count, rest := bs.rest.drop count }) := by
  simp [read_signed_bits, read_bits_ok bs count h, signed_field]

theorem sign_extend_range (width v : Nat) (hw : 0 < width) (hv : v < 2 ^ width) :
    -(2 ^ (width - 1) : Int) ≤ sign_extend width v ∧ sign_extend width v < 2 ^ (width - 1) := by
  have hp : (2 : Int) ^ width = 2 * 2 ^ (width - 1) := by
    conv_lhs => rw [show width = (width - 1) + 1 by omega]
    rw [pow_succ]; ring
  have hv' : (v : Int) < 2 ^ width := by exact_mod_cast hv
  unfold sign_extend
  split
  · rename_i h
    have h2 : ((2 : Int) ^ (width - 1)) ≤ v := by exact_mod_cast h.2
    constructor <;> omega
  · rename_i h
    have h2 : (v : Int) < 2 ^ (width - 1) := by
      have : ¬ 2 ^ (width - 1) ≤ v := fun hc => h ⟨by omega, hc⟩
      exact_mod_cast Nat.lt_of_not_le this
    have h3 : (0 : Int) ≤ 2 ^ (width - 1) := by positivity
    constructor <;> omega

theorem signed_field_16_range (l : List Bool) (off : Nat) :
    -32768 ≤ signed_field l off 16 ∧ signed_field l off 16 ≤ 32767 := by
  have h := sign_extend_range 16 (field l off 16) (by decide) (field_lt l off 16)
  simp only [signed_field]
  norm_num at h
  omega

theorem read_frame_header_ok (bs : Bitstream) (max_samples_per_frame : Int)
    (h : (if field bs.rest 19 1 = 1 then 55 else 23) ≤ bs.rest.length) :
    ALACDecoder_read_frame_header bs max_samples_per_frame =
      (.ok (.OK, { channels := field bs.rest 0 3 + 1,
                   has_size := field bs.rest 19 1,
                   wasted_bits := field bs.rest 20 2,
                   is_not_compressed := field bs.rest 22 1,
                   output_samples :=
                     if field bs.rest 19 1 = 1 then (field bs.rest 23 32 : Int)
                     else max_samples_per_frame }),
       { consumed := bs.consumed + (if field bs.rest 19 1 = 1 then 55 else 23),
         rest := bs.rest.drop (if field bs.rest 19 1 = 1 then 55 else 23) }) := by
  have hs : field bs.rest 19 1 < 2 ^ 1 := field_lt _ _ _
  have h23 : 23 ≤ bs.rest.length := by split at h <;> omega
  unfold ALACDecoder_read_frame_header
  rw [read_bits_ok bs 3 (by omega)]
  simp only []
  rw [read_bits_ok _ 16 (by simp; omega)]
  simp only []
  rw [read_bits_ok _ 1 (by simp; omega)]
  simp only []
  rw [read_bits_ok _ 2 (by simp; omega)]
  simp only []
  rw [read_bits_ok _ 1 (by simp; omega)]
  simp only [field_drop, List.drop_drop, Nat.reduceAdd, Nat.add_zero, Nat.add_assoc]
  rcases (by omega : field bs.rest 19 1 = 0 ∨ field bs.rest 19 1 = 1) with h0 | h1
  · simp [h0]
  · rw [h1] at h
    rw [read_bits_ok _ 32 (by simp at h ⊢; omega)]
    simp [h1, field_drop, List.drop_drop, Nat.add_assoc]

/-- C1.  With enough bits in the stream (23, or 55 when the `has_size` bit is
set), `ALACDecoder_read_frame_header` returns `OK` with `channels` the first
3-bit field plus one (so 1..8), skips 16 bits, takes `has_size` from bit 19,
`wasted_bits` from the 2 bits after it (0..3), `is_not_compressed` from bit
22, and `output_samples` from the next 32 bits when `has_size` is 1 and from
`max_samples_per_frame` otherwise; the cursor advances by exactly 55 bits in
the first case and 23 in the second. -/
theorem read_frame_header_fields (bs : Bitstream) (max_samples_per_frame : Int)
    (h : (if field bs.rest 19 1 = 1 then 55 else 23) ≤ bs.rest.length) :
    ALACDecoder_read_frame_header bs max_samples_per_frame =
      (.ok (.OK, { channels := field bs.rest 0 3 + 1,
                   has_size := field bs.rest 19 1,
                   wasted_bits := field bs.rest 20 2,
                   is_not_compressed := field bs.rest 22 1,
                   output_samples :=
                     if field bs.rest 19 1 = 1 then (field bs.rest 23 32 : Int)
                     else max_samples_per_frame }),
       { consumed := bs.consumed + (if field bs.rest 19 1 = 1 then 55 else 23),
         rest := bs.rest.drop (if field bs.rest 19 1 = 1 then 55 else 23) }) ∧
    1 ≤ field bs.rest 0 3 + 1 ∧ field bs.rest 0 3 + 1 ≤ 8 ∧
    field bs.rest 19 1 ≤ 1 ∧ field bs.rest 20 2 ≤ 3 ∧ field bs.rest 22 1 ≤ 1 ∧
    field bs.rest 23 32 < 2 ^ 32 := by
  have hs : field bs.rest 19 1 < 2 ^ 1 := field_lt _ _ _
  have hc : field bs.rest 0 3 < 2 ^ 3 := field_lt _ _ _
  have hw : field bs.rest 20 2 < 2 ^ 2 := field_lt _ _ _
  have hn : field bs.rest 22 1 < 2 ^ 1 := field_lt _ _ _
  exact ⟨read_frame_header_ok bs max_samples_per_frame h, by omega, by omega, by omega,
    by omega, by omega, field_lt _ _ _⟩

/-- Witness for C1: a 55-bit header announcing 2 channels, wasted-bits code 2,
an uncompressed frame and an explicit size of 5. -/
theorem read_frame_header_fields_witness :
    ((if field header_example.rest 19 1 = 1 then 55 else 23) ≤ header_example.rest.length) ∧
    (ALACDecoder_read_frame_header header_example 4096 =
      (.ok (.OK, { channels := field header_example.rest 0 3 + 1,
                   has_size := field header_example.rest 19 1,
                   wasted_bits := field header_example.rest 20 2,
                   is_not_compressed := field header_example.rest 22 1,
                   output_samples :=
                     if field header_example.rest 19 1 = 1
                     then (field header_example.rest 23 32 : Int) else 4096 }),
       { consumed := header_example.consumed +
           (if field header_example.rest 19 1 = 1 then 55 else 23),
         rest := header_example.rest.drop
           (if field header_example.rest 19 1 = 1 then 55 else 23) }) ∧
    1 ≤ field header_example.rest 0 3 + 1 ∧ field header_example.rest 0 3 + 1 ≤ 8 ∧
    field header_example.rest 19 1 ≤ 1 ∧ field header_example.rest 20 2 ≤ 3 ∧
    field header_example.rest 22 1 ≤ 1 ∧ field header_example.rest 23 32 < 2 ^ 32) :=
  ⟨by decide, read_frame_header_fields header_example 4096 (by decide)⟩

/-! ## Subframe header -/

theorem read_predictor_coefs_ok (n : Nat) (bs : Bitstream) (table : i_array)
    (h : 16 * n ≤ bs.rest.length) :
    read_predictor_coefs n bs table =
      (.ok (table ++ (List.range n).map (fun k => signed_field bs.rest (16 * k) 16)),
       { consumed := bs.consumed + 16 * n, rest := bs.rest.drop (16 * n) }) := by
  induction n generalizing bs table with
  | zero => simp [read_predictor_coefs]
  | succ n ih =>
    rw [read_predictor_coefs, read_signed_bits_ok bs 16 (by omega)]
    simp only []
    rw [ih _ _ (by simp; omega)]
    simp only [List.range_succ_eq_map, List.map_cons, List.map_map, signed_field_drop,
      List.drop_drop, List.append_assoc, List.singleton_append, Nat.mul_zero]
    simp only [Prod.mk.injEq, Except.ok.injEq, Bitstream.mk.injEq, List.append_cancel_left_eq,
      List.cons.injEq, true_and]
    refine ⟨?_, by omega, by congr 1; omega⟩
    apply List.map_congr_left
    intro k _
    simp [Function.comp, Nat.mul_succ, Nat.add_comm]

theorem read_subframe_header_ok (bs : Bitstream)
    (h : 16 + 16 * field bs.rest 11 5 ≤ bs.rest.length) :
    ALACDecoder_read_subframe_header bs =
      (.ok (.OK, { prediction_type := field bs.rest 0 4,
                   prediction_quantitization := field bs.rest 4 4,
                   rice_modifier := field bs.rest 8 3,
                   predictor_coef_table :=
                     (List.range (field bs.rest 11 5)).map
                       (fun k => signed_field bs.rest (16 + 16 * k) 16) }),
       { consumed := bs.consumed + (16 + 16 * field bs.rest 11 5),
         rest := bs.rest.drop (16 + 16 * field bs.rest 11 5) }) := by
  unfold ALACDecoder_read_subframe_header
  rw [read_bits_ok bs 4 (by omega)]
  simp only []
  rw [read_bits_ok _ 4 (by simp; omega)]
  simp only []
  rw [read_bits_ok _ 3 (by simp; omega)]
  simp only []
  rw [read_bits_ok _ 5 (by simp; omega)]
  simp only [field_drop, List.drop_drop, Nat.reduceAdd, Nat.add_zero, Nat.add_assoc]
  rw [read_predictor_coefs_ok _ _ _ (by simp; omega)]
  simp [signed_field_drop, List.drop_drop, Nat.add_assoc]

/-- C9.  With enough bits, `ALACDecoder_read_subframe_header` returns `OK`
after reading `prediction_type` (4 bits), `prediction_quantitization` (4
bits), `rice_modifier` (3 bits) and the coefficient count `n` (5 bits, at most
31) in that order, followed by `n` signed 16-bit coefficients in stream order;
the table has exactly `n` entries, each in [-32768, 32767], and the cursor
advances by exactly `16 + 16 * n` bits. -/
theorem read_subframe_header_fields (bs : Bitstream)
    (h : 16 + 16 * field bs.rest 11 5 ≤ bs.rest.length) :
    ∃ header : alac_subframe_header,
      ALACDecoder_read_subframe_header bs =
        (.ok (.OK, header),
         { consumed := bs.consumed + (16 + 16 * field bs.rest 11 5),
           rest := bs.rest.drop (16 + 16 * field bs.rest 11 5) }) ∧
      header.prediction_type = field bs.rest 0 4 ∧
      header.prediction_quantitization = field bs.rest 4 4 ∧
      header.rice_modifier = field bs.rest 8 3 ∧
      field bs.rest 11 5 ≤ 31 ∧
      header.predictor_coef_table.length = field bs.rest 11 5 ∧
      (∀ k (hk : k < header.predictor_coef_table.length),
        header.predictor_coef_table[k] = signed_field bs.rest (16 + 16 * k) 16) ∧
      (∀ c ∈ header.predictor_coef_table, -32768 ≤ c ∧ c ≤ 32767) := by
  have hn : field bs.rest 11 5 < 2 ^ 5 := field_lt _ _ _
  refine ⟨_, read_subframe_header_ok bs h, rfl, rfl, rfl, by omega, by simp, ?_, ?_⟩
  · intro k hk
    simp
  · intro c hc
    simp only [List.mem_map, List.mem_range] at hc
    obtain ⟨k, -, rfl⟩ := hc
    exact signed_field_16_range _ _

/-- Witness for C9: a header announcing two coefficients, followed by them. -/
theorem read_subframe_header_fields_witness :
    16 + 16 * field subframe_example.rest 11 5 ≤ subframe_example.rest.length ∧
    ∃ header : alac_subframe_header,
      ALACDecoder_read_subframe_header subframe_example =
        (.ok (.OK, header),
         { consumed := subframe_example.consumed +
             (16 + 16 * field subframe_example.rest 11 5),
           rest := subframe_example.rest.drop
             (16 + 16 * field subframe_example.rest 11 5) }) ∧
      header.prediction_type = field subframe_example.rest 0 4 ∧
      header.prediction_quantitization = field subframe_example.rest 4 4 ∧
      header.rice_modifier = field subframe_example.rest 8 3 ∧
      field subframe_example.rest 11 5 ≤ 31 ∧
      header.predictor_coef_table.length = field subframe_example.rest 11 5 ∧
      (∀ k (hk : k < header.predictor_coef_table.length),
        header.predictor_coef_table[k] =
          signed_field subframe_example.rest (16 + 16 * k) 16) ∧
      (∀ c ∈ header.predictor_coef_table, -32768 ≤ c ∧ c ≤ 32767) :=
  ⟨by decide, read_subframe_header_fields subframe_example (by decide)⟩

/-! ## Container scan -/

theorem seek_mdat_loop_step (st_size i : Nat) (bs bs1 bs2 : Bitstream) (atom_size atom_type : Nat)
    (hi : i < st_size)
    (h1 : read_bits bs 32 = .ok (atom_size, bs1))
    (h2 : read_bits bs1 32 = .ok (atom_type, bs2)) :
    seek_mdat_loop st_size i bs =
      if atom_type = 0x6D646174 then (.ok .OK, bs2)
      else seek_mdat_loop st_size (i + atom_size)
        (fseek_cur bs2 ((atom_size + 2 ^ 32 - 8) % 2 ^ 32)) := by
  rw [seek_mdat_loop]
  simp only [hi, if_true]
  split
  · rename_i e h
    rw [h1] at h
    cases h
  · rename_i a b1 h
    rw [h1] at h
    cases h
    split
    · rename_i e h'
      rw [h2] at h'
      cases h'
    · rename_i t b2 h'
      rw [h2] at h'
      cases h'
      rfl

theorem foldl_bits (l : List Bool) (acc : Nat) :
    l.foldl (fun acc b => 2 * acc + b.toNat) acc = acc * 2 ^ l.length + bits_value l := by
  induction l generalizing acc with
  | nil => simp [bits_value]
  | cons b l ih =>
    simp only [List.foldl_cons, List.length_cons, bits_value]
    rw [ih, ih (2 * 0 + b.toNat)]
    ring

theorem bits_value_cons (b : Bool) (l : List Bool) :
    bits_value (b :: l) = b.toNat * 2 ^ l.length + bits_value l := by
  simp only [bits_value, List.foldl_cons]
  rw [foldl_bits]
  simp [bits_value]

theorem length_nat_bits (w n : Nat) : (nat_bits w n).length = w := by
  induction w with
  | zero => rfl
  | succ w ih => simp [nat_bits, ih]

theorem bits_value_nat_bits (w n : Nat) : bits_value (nat_bits w n) = n % 2 ^ w := by
  induction w with
  | zero => simp [nat_bits, bits_value, Nat.mod_one]
  | succ w ih =>
    rw [nat_bits, bits_value_cons, ih, length_nat_bits, Nat.mod_pow_succ]
    have h2 : n / 2 ^ w % 2 < 2 := Nat.mod_lt _ (by decide)
    rcases (by omega : n / 2 ^ w % 2 = 0 ∨ n / 2 ^ w % 2 = 1) with h | h
    · simp [h]
    · simp [h]; ring

theorem read_bits_nat_bits (c w n : Nat) (tail : List Bool) :
    read_bits { consumed := c, rest := nat_bits w n ++ tail } w =
      .ok (n % 2 ^ w, { consumed := c + w, rest := tail }) := by
  have hl := length_nat_bits w n
  simp [read_bits, hl, List.take_left', List.drop_left', bits_value_nat_bits]

theorem seek_mdat_loop_skips (st_size : Nat) (pre : List Atom) (i c X : Nat)
    (tail : List Bool) (hpre : ∀ a ∈ pre, a.Skippable)
    (hi : i + atoms_size pre < st_size) :
    seek_mdat_loop st_size i
        { consumed := c,
          rest := container_bits pre ++ (nat_bits 32 X ++ (nat_bits 32 0x6D646174 ++ tail)) } =
      (.ok .OK, { consumed := c + 8 * atoms_size pre + 64, rest := tail }) := by
  induction pre generalizing i c with
  | nil =>
    simp only [container_bits, List.nil_append]
    rw [seek_mdat_loop_step st_size i _ _ _ _ _ (by simpa [atoms_size] using hi)
      (read_bits_nat_bits c 32 X _) (read_bits_nat_bits (c + 32) 32 0x6D646174 _)]
    simp [atoms_size]
  | cons a pre ih =>
    obtain ⟨h8, hs, ht, hm, hp⟩ := hpre a (by simp)
    have hrest : container_bits (a :: pre) ++
          (nat_bits 32 X ++ (nat_bits 32 0x6D646174 ++ tail)) =
        nat_bits 32 a.size ++ (nat_bits 32 a.type ++ (a.payload ++
          (container_bits pre ++ (nat_bits 32 X ++ (nat_bits 32 0x6D646174 ++ tail))))) := by
      simp [container_bits, Atom.bits, List.append_assoc]
    rw [hrest]
    rw [seek_mdat_loop_step st_size i _ _ _ _ _ (by simp [atoms_size] at hi; omega)
      (read_bits_nat_bits c 32 a.size _) (read_bits_nat_bits (c + 32) 32 a.type _)]
    rw [Nat.mod_eq_of_lt ht, Nat.mod_eq_of_lt hs, if_neg hm]
    have hoff : (a.size + 2 ^ 32 - 8) % 2 ^ 32 = a.size - 8 := by omega
    rw [hoff]
    have hseek : fseek_cur
          { consumed := c + 32 + 32,
            rest := a.payload ++
              (container_bits pre ++ (nat_bits 32 X ++ (nat_bits 32 0x6D646174 ++ tail))) }
          (a.size - 8) =
        { consumed := c + 8 * a.size,
          rest := container_bits pre ++ (nat_bits 32 X ++ (nat_bits 32 0x6D646174 ++ tail)) } := by
      simp only [fseek_cur, Bitstream.mk.injEq]
      refine ⟨by omega, ?_⟩
      rw [← hp]
      exact List.drop_left' rfl
    rw [hseek, ih (i + a.size) (c + 8 * a.size) (fun b hb => hpre b (by simp [hb]))
      (by simp [atoms_size] at hi; omega)]
    simp only [atoms_size, Prod.mk.injEq, Bitstream.mk.injEq, and_true, true_and]
    omega


theorem length_container_bits (pre : List Atom) (hpre : ∀ a ∈ pre, a.Skippable) :
    (container_bits pre).length = 8 * atoms_size pre := by
  induction pre with
  | nil => rfl
  | cons a pre ih =>
    obtain ⟨h8, -, -, -, hp⟩ := hpre a (by simp)
    simp only [container_bits, Atom.bits, List.length_append, length_nat_bits, hp,
      ih (fun b hb => hpre b (by simp [hb])), atoms_size]
    omega

/-- C10.  On a file that starts with atoms of other types, each declaring a
size of at least 8 bytes equal to its extent, followed by the `mdat` atom
header, `ALACDecoder_seek_mdat` returns `OK` with the cursor `S + 8` bytes
into the file, `S` being the sum of the sizes before `mdat`: right behind the
`mdat` type code. -/
theorem seek_mdat_finds_mdat (self : decoders_ALACDecoder) (pre : List Atom) (X : Nat)
    (tail : List Bool) (hpre : ∀ a ∈ pre, a.Skippable)
    (hfile : self.bitstream =
      bs_open (container_bits pre ++ (nat_bits 32 X ++ (nat_bits 32 0x6D646174 ++ tail)))) :
    ALACDecoder_seek_mdat self =
      (.ok .OK,
       { self with bitstream := { consumed := 8 * (atoms_size pre + 8), rest := tail } }) := by
  unfold ALACDecoder_seek_mdat
  rw [hfile]
  simp only [bs_open]
  rw [seek_mdat_loop_skips _ pre 0 0 X tail hpre]
  · simp only [Prod.mk.injEq, true_and]
    congr 2
    omega
  · simp only [List.length_append, length_container_bits pre hpre, length_nat_bits]
    omega

/-- Witness for C10: on `[free, size 16][mdat, size 1000]` the cursor ends 24
bytes into the file. -/
theorem seek_mdat_finds_mdat_witness :
    (∀ a ∈ [free_atom], a.Skippable) ∧
    (decoder_on (bs_open free_mdat_file) 2 16 100 4096).bitstream =
      bs_open (container_bits [free_atom] ++
        (nat_bits 32 1000 ++ (nat_bits 32 0x6D646174 ++ nat_bits 16 0xABCD))) ∧
    ALACDecoder_seek_mdat (decoder_on (bs_open free_mdat_file) 2 16 100 4096) =
      (.ok .OK,
       { decoder_on (bs_open free_mdat_file) 2 16 100 4096 with
         bitstream := { consumed := 8 * (atoms_size [free_atom] + 8),
                        rest := nat_bits 16 0xABCD } }) ∧
    8 * (atoms_size [free_atom] + 8) = 8 * 24 :=
  ⟨by decide, rfl,
   seek_mdat_finds_mdat (decoder_on (bs_open free_mdat_file) 2 16 100 4096)
     [free_atom] 1000 (nat_bits 16 0xABCD) (by decide) rfl,
   rfl⟩


/-! ## Uncompressed samples -/

theorem iaa_append_ok (s : ia_array) (c : Nat) (v : Int) (hc : c < s.length) :
    iaa_append s c v = some (s.set c (s[c] ++ [v])) := by
  simp [iaa_append, List.getElem?_eq_getElem hc]

theorem read_uncompressed_channels_ok (w k c : Nat) (bs : Bitstream) (s : ia_array)
    (hlen : c + k ≤ s.length) (hbits : k * w ≤ bs.rest.length) :
    ∃ s', read_uncompressed_channels w k c bs s =
        (.ok (), { consumed := bs.consumed + k * w, rest := bs.rest.drop (k * w) }, s') ∧
      s'.length = s.length ∧
      ∀ j, s'[j]? =
        if c ≤ j ∧ j < c + k then
          (s[j]?).map (fun b => b ++ [signed_field bs.rest ((j - c) * w) w])
        else s[j]? := by
  induction k generalizing c bs s with
  | zero =>
    refine ⟨s, by simp [read_uncompressed_channels], rfl, ?_⟩
    intro j
    rw [if_neg (by omega)]
  | succ k ih =>
    have hmul : (k + 1) * w = k * w + w := Nat.succ_mul k w
    have hw : w ≤ bs.rest.length := by omega
    have hc : c < s.length := by omega
    rw [read_uncompressed_channels, read_signed_bits_ok bs w hw]
    simp only []
    rw [iaa_append_ok s c _ hc]
    simp only []
    obtain ⟨s', hrun, hl, hget⟩ := ih (c + 1)
      { consumed := bs.consumed + w, rest := bs.rest.drop w }
      (s.set c (s[c] ++ [signed_field bs.rest 0 w]))
      (by simp; omega) (by simp; omega)
    refine ⟨s', ?_, by simpa using hl, ?_⟩
    · rw [hrun]
      simp only [List.drop_drop, Prod.mk.injEq, Bitstream.mk.injEq, true_and, and_true]
      refine ⟨by omega, by congr 1; omega⟩
    · intro j
      rw [hget j]
      simp only [signed_field_drop, List.getElem?_set]
      by_cases hj : c = j
      · subst hj
        simp [hc]
      · by_cases hj2 : c + 1 ≤ j ∧ j < c + 1 + k
        · have e : w + (j - (c + 1)) * w = (j - c) * w := by
            have : j - c = (j - (c + 1)) + 1 := by omega
            rw [this, Nat.succ_mul]; omega
          rw [if_pos hj2, if_neg hj, if_pos (by omega), e]
        · rw [if_neg hj2, if_neg hj, if_neg (by omega)]

theorem read_uncompressed_samples_ok (C w n : Nat) (bs : Bitstream) (s : ia_array)
    (hlen : s.length = C) (hbits : n * (C * w) ≤ bs.rest.length) :
    ∃ s', read_uncompressed_samples C w n bs s =
        (.ok (), { consumed := bs.consumed + n * (C * w),
                   rest := bs.rest.drop (n * (C * w)) }, s') ∧
      s'.length = s.length ∧
      ∀ j, j < C → s'[j]? =
        (s[j]?).map (fun b => b ++
          (List.range n).map (fun i => signed_field bs.rest ((i * C + j) * w) w)) := by
  induction n generalizing bs s with
  | zero =>
    refine ⟨s, by simp [read_uncompressed_samples], rfl, ?_⟩
    intro j _
    simp
  | succ n ih =>
    have hmul : (n + 1) * (C * w) = n * (C * w) + C * w := Nat.succ_mul n (C * w)
    obtain ⟨s1, hrun1, hl1, hget1⟩ := read_uncompressed_channels_ok w C 0 bs s
      (by omega) (by omega)
    obtain ⟨s', hrun, hl, hget⟩ := ih
      { consumed := bs.consumed + C * w, rest := bs.rest.drop (C * w) } s1
      (by omega) (by simp; omega)
    refine ⟨s', ?_, by omega, ?_⟩
    · rw [read_uncompressed_samples, hrun1]
      simp only []
      rw [hrun]
      simp only [List.drop_drop, Prod.mk.injEq, Bitstream.mk.injEq, true_and, and_true]
      refine ⟨by omega, by congr 1; omega⟩
    · intro j hj
      rw [hget j hj, hget1 j, if_pos (by omega)]
      simp only [Option.map_map, signed_field_drop, Nat.sub_zero]
      congr 1
      funext b
      simp only [Function.comp, List.range_succ_eq_map, List.map_cons, List.map_map,
        List.append_assoc, List.singleton_append, Nat.zero_mul, Nat.zero_add]
      congr 2
      apply List.map_congr_left
      intro i _
      simp only [Function.comp, Nat.succ_eq_add_one]
      congr 1
      ring

theorem interleave_channel_ok (data : i_array) (C n i j : Nat) (out : List Int)
    (hC : 0 < C) (hdata : j + n ≤ data.length)
    (hout : ∀ t, t < n → i + t * C < out.length) :
    ∃ out', interleave_channel data C n i j out = some out' ∧
      out'.length = out.length ∧
      (∀ t, t < n → out'[i + t * C]? = data[j + t]?) ∧
      (∀ p, (∀ t, t < n → p ≠ i + t * C) → out'[p]? = out[p]?) := by
  induction n generalizing i j out with
  | zero =>
    exact ⟨out, rfl, rfl, fun t ht => absurd ht (Nat.not_lt_zero t), fun p _ => rfl⟩
  | succ n ih =>
    have hj : j < data.length := by omega
    have hi : i < out.length := by simpa using hout 0 (Nat.succ_pos n)
    obtain ⟨out', hrun, hl, hhit, hframe⟩ := ih (i + C) (j + 1) (out.set i data[j])
      (by omega)
      (by
        intro t ht
        have := hout (t + 1) (by omega)
        rw [Nat.succ_mul] at this
        simp only [List.length_set]
        omega)
    refine ⟨out', ?_, by simpa using hl, ?_, ?_⟩
    · rw [interleave_channel, List.getElem?_eq_getElem hj]
      simp only [hi, if_true]
      exact hrun
    · intro t ht
      cases t with
      | zero =>
        have h1 := hframe i (by
          intro t _
          have : 0 < C := hC
          omega)
        simp only [Nat.zero_mul, Nat.add_zero]
        rw [h1, List.getElem?_set_self hi, List.getElem?_eq_getElem hj]
      | succ t =>
        have h1 := hhit t (by omega)
        have e1 : i + (t + 1) * C = i + C + t * C := by rw [Nat.succ_mul]; omega
        have e2 : j + (t + 1) = j + 1 + t := by omega
        rw [e1, e2]
        exact h1
    · intro p hp
      have h0 := hp 0 (Nat.succ_pos n)
      simp only [Nat.zero_mul, Nat.add_zero] at h0
      rw [hframe p (by
        intro t ht
        have := hp (t + 1) (by omega)
        rw [Nat.succ_mul] at this
        omega)]
      exact List.getElem?_set_ne (Ne.symm h0)

theorem interleave_index_ne (C c c' t t' : Nat) (hc : c < C) (hc' : c' < C) (hne : c ≠ c') :
    c + t * C ≠ c' + t' * C := by
  intro h
  have h1 : (c + t * C) % C = c := by
    rw [Nat.add_mul_mod_self_right, Nat.mod_eq_of_lt hc]
  have h2 : (c' + t' * C) % C = c' := by
    rw [Nat.add_mul_mod_self_right, Nat.mod_eq_of_lt hc']
  rw [h] at h1
  omega

theorem interleave_ok (s : ia_array) (C n k ch : Nat) (out : List Int)
    (hC : 0 < C) (hch : ch + k ≤ C)
    (hs : ∀ c, ch ≤ c → c < ch + k → n ≤ (s.getD c []).length)
    (hout : n * C ≤ out.length) :
    ∃ out', interleave s C n k ch out = some out' ∧
      out'.length = out.length ∧
      (∀ c t, ch ≤ c → c < ch + k → t < n → out'[c + t * C]? = (s.getD c [])[t]?) ∧
      (∀ p, (∀ c t, ch ≤ c → c < ch + k → t < n → p ≠ c + t * C) → out'[p]? = out[p]?) := by
  induction k generalizing ch out with
  | zero =>
    exact ⟨out, rfl, rfl, fun c t h1 h2 => by omega, fun p _ => rfl⟩
  | succ k ih =>
    obtain ⟨out1, hrun1, hl1, hhit1, hframe1⟩ :=
      interleave_channel_ok (s.getD ch []) C n ch 0 out hC
        (by have := hs ch (le_refl ch) (by omega); omega)
        (by
          intro t ht
          have h1 : (t + 1) * C ≤ n * C := Nat.mul_le_mul_right C ht
          rw [Nat.succ_mul] at h1
          omega)
    obtain ⟨out', hrun, hl, hhit, hframe⟩ := ih (ch + 1) out1 (by omega)
      (fun c h1 h2 => hs c (by omega) (by omega)) (by omega)
    refine ⟨out', ?_, by omega, ?_, ?_⟩
    · rw [interleave, hrun1]
      exact hrun
    · intro c t h1 h2 ht
      by_cases hc : c = ch
      · subst hc
        rw [hframe (c + t * C) (fun c' t' h1' h2' _ =>
          interleave_index_ne C c c' t t' (by omega) (by omega) (by omega))]
        have := hhit1 t ht
        simpa using this
      · exact hhit c t (by omega) (by omega) ht
    · intro p hp
      rw [hframe p (fun c t h1 h2 ht => hp c t (by omega) (by omega) ht)]
      exact hframe1 p (fun t ht => hp ch t (le_refl ch) (by omega) ht)

theorem interleave_full (s : ia_array) (C n : Nat) (f : Nat → Int) (hC : 0 < C)
    (hbuf : ∀ c, c < C → s[c]? = some ((List.range n).map (fun t => f (c + t * C)))) :
    interleave s C n C 0 (List.replicate (n * C) 0) = some ((List.range (n * C)).map f) := by
  have hget : ∀ c, c < C → s.getD c [] = (List.range n).map (fun t => f (c + t * C)) := by
    intro c hc
    simp [List.getD_eq_getElem?_getD, hbuf c hc]
  obtain ⟨out', hrun, hl, hhit, -⟩ := interleave_ok s C n C 0 (List.replicate (n * C) 0) hC
    (by omega) (fun c _ hc => by rw [hget c (by omega)]; simp) (by simp)
  rw [hrun]
  congr 1
  apply List.ext_getElem?
  intro p
  by_cases hp : p < n * C
  · have hmod : p % C < C := Nat.mod_lt _ hC
    have hdiv : p / C < n := Nat.div_lt_of_lt_mul (by rw [Nat.mul_comm]; exact hp)
    have hsplit : p % C + p / C * C = p := by
      rw [Nat.mul_comm]; exact Nat.mod_add_div p C
    have h1 := hhit (p % C) (p / C) (Nat.zero_le _) (by omega) hdiv
    rw [hsplit, hget (p % C) hmod] at h1
    rw [h1]
    simp [List.getElem?_map, List.getElem?_range hdiv, List.getElem?_range hp, hsplit]
  · rw [List.getElem?_eq_none (by simp at hl; omega), List.getElem?_eq_none (by simp; omega)]

theorem write_frame_ok (self : decoders_ALACDecoder) (os : Int) (f : Nat → Int)
    (hC : 0 < self.channels)
    (hbuf : ∀ c, c < self.channels.toNat →
      self.samples[c]? =
        some ((List.range os.toNat).map (fun t => f (c + t * self.channels.toNat)))) :
    write_frame self os =
      (.ok { frames := (os.toNat : Int), channels := self.channels,
             bits_per_sample := self.bits_per_sample,
             samples_length := (os.toNat : Int) * self.channels,
             samples := (List.range (os.toNat * self.channels.toNat)).map f },
       { self with total_frames := self.total_frames - (os.toNat : Int) }) := by
  have hC' : 0 < self.channels.toNat := by omega
  have hch : ((self.channels.toNat : Nat) : Int) = self.channels := Int.toNat_of_nonneg (by omega)
  unfold write_frame
  rw [hbuf 0 hC']
  simp only [List.length_map, List.length_range]
  have hsl : ((os.toNat : Int) * self.channels).toNat = os.toNat * self.channels.toNat := by
    rw [← hch]
    exact_mod_cast Int.toNat_natCast _
  rw [hsl, interleave_full self.samples self.channels.toNat os.toNat f hC' hbuf]


/-! ## One decode call -/

theorem read_signature_eq (self : decoders_ALACDecoder) (os : Int)
    (h3 : 3 ≤ self.bitstream.rest.length) :
    read_signature self os =
      if field self.bitstream.rest 0 3 ≠ 7 then
        (.error .invalidSignature,
         { self with bitstream :=
             { consumed := self.bitstream.consumed + 3, rest := self.bitstream.rest.drop 3 } })
      else
        write_frame
          { self with
            bitstream := byte_align_r ⟨self.bitstream.consumed + 3, self.bitstream.rest.drop 3⟩ }
          os := by
  unfold read_signature
  rw [read_bits_ok _ 3 h3]

theorem iaa_reset_getElem? (s : ia_array) (c : Nat) (hc : c < s.length) :
    (iaa_reset s)[c]? = some [] := by
  simp [iaa_reset, List.getElem?_replicate, hc]

theorem read_at_uncompressed_frame (self : decoders_ALACDecoder)
    (hwf : self.WellFormed) (hat : FrameInStream self) :
    ∃ S : ia_array,
      S.length = self.channels.toNat ∧
      (∀ c, c < self.channels.toNat →
        S[c]? = some ((List.range (frame_header_samples self).toNat).map
          (fun t => frame_value self (c + t * self.channels.toNat)))) ∧
      ALACDecoder_read self =
        read_signature
          { self with
            samples := S
            bitstream :=
              { consumed := self.bitstream.consumed +
                  (frame_header_bits self + frame_data_bits self),
                rest := self.bitstream.rest.drop
                  (frame_header_bits self + frame_data_bits self) } }
          (frame_header_samples self) := by
  obtain ⟨htot, hnc, hbits⟩ := hat
  have hhdr := (read_frame_header_ok self.bitstream self.max_samples_per_frame
    (by unfold frame_header_bits at hbits; omega))
  obtain ⟨S, hrun, hl, hget⟩ := read_uncompressed_samples_ok self.channels.toNat
    self.bits_per_sample.toNat (frame_header_samples self).toNat
    { consumed := self.bitstream.consumed + frame_header_bits self,
      rest := self.bitstream.rest.drop (frame_header_bits self) }
    (iaa_reset self.samples) (by simp [iaa_reset, hwf.1])
    (by simp only [List.length_drop]; unfold frame_data_bits at hbits; omega)
  refine ⟨S, by simpa [iaa_reset, hwf.1] using hl, ?_, ?_⟩
  · intro c hc
    rw [hget c hc, iaa_reset_getElem? _ c (by rw [hwf.1]; exact hc)]
    simp only [Option.map_some', List.nil_append, signed_field_drop, frame_value]
    congr 2
    funext t
    congr 1
    ring
  · unfold ALACDecoder_read
    simp only [show ¬ self.total_frames < 1 by omega, if_false]
    rw [hhdr]
    simp only [hnc, ne_eq, one_ne_zero, not_false_eq_true, if_true]
    unfold frame_header_samples frame_header_bits at hrun
    rw [hrun]
    simp only [List.drop_drop, frame_data_bits, frame_header_samples, frame_header_bits]
    congr 3
    omega

theorem read_frame_header_short (bs : Bitstream) (max_samples_per_frame : Int)
    (h : ¬ (if field bs.rest 19 1 = 1 then 55 else 23) ≤ bs.rest.length) :
    (ALACDecoder_read_frame_header bs max_samples_per_frame).1 = .error .truncated := by
  unfold ALACDecoder_read_frame_header
  by_cases h3 : 3 ≤ bs.rest.length
  swap
  · rw [read_bits_truncated bs 3 (by omega)]
  rw [read_bits_ok bs 3 h3]
  simp only []
  by_cases h19 : 19 ≤ bs.rest.length
  swap
  · rw [read_bits_truncated _ 16 (by simp; omega)]
  rw [read_bits_ok _ 16 (by simp; omega)]
  simp only []
  by_cases h20 : 20 ≤ bs.rest.length
  swap
  · rw [read_bits_truncated _ 1 (by simp; omega)]
  rw [read_bits_ok _ 1 (by simp; omega)]
  simp only []
  by_cases h22 : 22 ≤ bs.rest.length
  swap
  · rw [read_bits_truncated _ 2 (by simp; omega)]
  rw [read_bits_ok _ 2 (by simp; omega)]
  simp only []
  by_cases h23 : 23 ≤ bs.rest.length
  swap
  · rw [read_bits_truncated _ 1 (by simp; omega)]
  rw [read_bits_ok _ 1 (by simp; omega)]
  simp only [field_drop, List.drop_drop, Nat.reduceAdd, Nat.add_zero, Nat.add_assoc]
  have hs : field bs.rest 19 1 < 2 ^ 1 := field_lt _ _ _
  rcases (by omega : field bs.rest 19 1 = 0 ∨ field bs.rest 19 1 = 1) with h0 | h1
  · rw [h0] at h
    simp at h
    omega
  · rw [h1] at h
    simp only [if_true] at h
    rw [read_bits_truncated _ 32 (by simp; omega)]
    simp [h1]

theorem write_frame_cases (self : decoders_ALACDecoder) (os : Int) :
    (write_frame self os = (.error .outOfBounds, self)) ∨
    (∃ channel0 out, self.samples[0]? = some channel0 ∧
      write_frame self os =
        (.ok { frames := (channel0.length : Int), channels := self.channels,
               bits_per_sample := self.bits_per_sample,
               samples_length := (channel0.length : Int) * self.channels, samples := out },
         { self with total_frames := self.total_frames - (channel0.length : Int) })) := by
  unfold write_frame
  split
  · exact Or.inl rfl
  · rename_i channel0 h0
    simp only []
    split
    · exact Or.inl rfl
    · rename_i out hout
      exact Or.inr ⟨channel0, out, h0, rfl⟩

theorem read_compressed_cases (self : decoders_ALACDecoder) (frame_header : alac_frame_header) :
    ∃ e bs wasted, read_compressed self frame_header =
      (.error e, { self with bitstream := bs, wasted_bits_samples := wasted }) := by
  unfold read_compressed
  split
  · exact ⟨_, self.bitstream, self.wasted_bits_samples, rfl⟩
  · split
    · exact ⟨_, _, self.wasted_bits_samples, rfl⟩
    · split
      · exact ⟨_, _, self.wasted_bits_samples, rfl⟩
      · split
        · split
          · exact ⟨_, _, _, rfl⟩
          · exact ⟨_, _, _, rfl⟩
        · exact ⟨_, _, self.wasted_bits_samples, rfl⟩

theorem read_uncompressed_frame_result (self : decoders_ALACDecoder)
    (hwf : self.WellFormed) (hat : FrameInStream self)
    (hch : 1 ≤ self.channels) (hsig : frame_signature self = 7) :
    ∃ S : ia_array,
      S.length = self.channels.toNat ∧
      (∀ c, c < self.channels.toNat →
        S[c]? = some ((List.range (frame_header_samples self).toNat).map
          (fun t => frame_value self (c + t * self.channels.toNat)))) ∧
      ALACDecoder_read self =
        (.ok { frames := ((frame_header_samples self).toNat : Int),
               channels := self.channels,
               bits_per_sample := self.bits_per_sample,
               samples_length := ((frame_header_samples self).toNat : Int) * self.channels,
               samples := (List.range
                 ((frame_header_samples self).toNat * self.channels.toNat)).map
                   (frame_value self) },
         { self with
           samples := S
           bitstream := byte_align_r
             ⟨self.bitstream.consumed + (frame_header_bits self + frame_data_bits self) + 3,
              self.bitstream.rest.drop (frame_header_bits self + frame_data_bits self + 3)⟩
           total_frames := self.total_frames - ((frame_header_samples self).toNat : Int) }) := by
  obtain ⟨S, hl, hget, hrun⟩ := read_at_uncompressed_frame self hwf hat
  refine ⟨S, hl, hget, ?_⟩
  rw [hrun, read_signature_eq _ _ (by simp only [List.length_drop]; have := hat.2.2; omega)]
  simp only [field_drop, Nat.add_zero]
  unfold frame_signature at hsig
  rw [hsig]
  simp only [ne_eq, not_true_eq_false, if_false, List.drop_drop]
  have h := write_frame_ok
    { self with
      samples := S
      bitstream := byte_align_r
        ⟨self.bitstream.consumed + (frame_header_bits self + frame_data_bits self) + 3,
         self.bitstream.rest.drop (frame_header_bits self + frame_data_bits self + 3)⟩ }
    (frame_header_samples self) (frame_value self) hch hget
  exact h

theorem read_uncompressed_bad_signature (self : decoders_ALACDecoder)
    (hwf : self.WellFormed) (hat : FrameInStream self)
    (hsig : frame_signature self ≠ 7) :
    ∃ S : ia_array,
      ALACDecoder_read self =
        (.error .invalidSignature,
         { self with
           samples := S
           bitstream :=
             ⟨self.bitstream.consumed + (frame_header_bits self + frame_data_bits self) + 3,
              self.bitstream.rest.drop
                (frame_header_bits self + frame_data_bits self + 3)⟩ }) := by
  obtain ⟨S, hl, hget, hrun⟩ := read_at_uncompressed_frame self hwf hat
  refine ⟨S, ?_⟩
  rw [hrun, read_signature_eq _ _ (by simp only [List.length_drop]; have := hat.2.2; omega)]
  simp only [field_drop, Nat.add_zero]
  unfold frame_signature at hsig
  rw [if_pos hsig]
  simp only [List.drop_drop, Nat.add_comm 3]

theorem read_uncompressed_no_channel (self : decoders_ALACDecoder)
    (hwf : self.WellFormed) (hat : FrameInStream self)
    (hch : self.channels < 1) (hsig : frame_signature self = 7) :
    ALACDecoder_read self =
      (.error .outOfBounds,
       { self with
         samples := []
         bitstream := byte_align_r
           ⟨self.bitstream.consumed + (frame_header_bits self + frame_data_bits self) + 3,
            self.bitstream.rest.drop (frame_header_bits self + frame_data_bits self + 3)⟩ }) := by
  obtain ⟨S, hl, hget, hrun⟩ := read_at_uncompressed_frame self hwf hat
  have hS : S = [] := by
    apply List.eq_nil_of_length_eq_zero
    rw [hl]
    omega
  subst hS
  rw [hrun, read_signature_eq _ _ (by simp only [List.length_drop]; have := hat.2.2; omega)]
  simp only [field_drop, Nat.add_zero]
  unfold frame_signature at hsig
  rw [hsig]
  simp only [ne_eq, not_true_eq_false, if_false, List.drop_drop]
  simp [write_frame, Nat.add_comm 3]

theorem read_exhausted_result (self : decoders_ALACDecoder)
    (hwf : self.WellFormed) (htot : self.total_frames < 1) (hch : 1 ≤ self.channels) :
    ALACDecoder_read self =
      (.ok { frames := 0, channels := self.channels,
             bits_per_sample := self.bits_per_sample,
             samples_length := 0, samples := [] },
       { self with samples := iaa_reset self.samples }) := by
  unfold ALACDecoder_read
  simp only [htot, if_true]
  have h := write_frame_ok { self with samples := iaa_reset self.samples } 0 (fun _ => 0) hch
    (by
      intro c hc
      simp only [Int.toNat_zero, List.range_zero, List.map_nil]
      exact iaa_reset_getElem? _ c (by rw [hwf.1]; exact hc))
  rw [h]
  simp

theorem read_compressed_frame (self : decoders_ALACDecoder) (htot : 1 ≤ self.total_frames)
    (hbits : frame_header_bits self ≤ self.bitstream.rest.length)
    (hc : field self.bitstream.rest 22 1 = 0) :
    ∃ e bs wasted, ALACDecoder_read self =
      (.error e, { self with samples := iaa_reset self.samples
                             bitstream := bs
                             wasted_bits_samples := wasted }) := by
  have hhdr := read_frame_header_ok self.bitstream self.max_samples_per_frame hbits
  unfold ALACDecoder_read
  simp only [show ¬ self.total_frames < 1 by omega, if_false]
  rw [hhdr]
  simp only [hc, ne_eq, not_true_eq_false, if_false]
  obtain ⟨e, bs, wasted, h⟩ := read_compressed_cases
    { self with samples := iaa_reset self.samples
                bitstream :=
                  { consumed := self.bitstream.consumed +
                      (if field self.bitstream.rest 19 1 = 1 then 55 else 23),
                    rest := self.bitstream.rest.drop
                      (if field self.bitstream.rest 19 1 = 1 then 55 else 23) } }
    { channels := field self.bitstream.rest 0 3 + 1,
      has_size := field self.bitstream.rest 19 1,
      wasted_bits := field self.bitstream.rest 20 2,
      is_not_compressed := 0,
      output_samples :=
        if field self.bitstream.rest 19 1 = 1 then (field self.bitstream.rest 23 32 : Int)
        else self.max_samples_per_frame }
  exact ⟨e, bs, wasted, h⟩

theorem byte_align_r_consumed (bs : Bitstream) :
    (byte_align_r bs).consumed % 8 = 0 ∧ bs.consumed ≤ (byte_align_r bs).consumed ∧
    (byte_align_r bs).consumed < bs.consumed + 8 := by
  simp only [byte_align_r]
  omega

theorem write_frame_total_frames_le (self : decoders_ALACDecoder) (os : Int) :
    (write_frame self os).2.total_frames ≤ self.total_frames := by
  rcases write_frame_cases self os with h | ⟨channel0, out, -, h⟩
  · rw [h]
  · rw [h]
    simp only
    omega

theorem read_signature_total_frames_le (self : decoders_ALACDecoder) (os : Int) :
    (read_signature self os).2.total_frames ≤ self.total_frames := by
  unfold read_signature
  split
  · exact le_refl _
  · split
    · exact le_refl _
    · exact write_frame_total_frames_le _ os

/-- C2.  For a decoder with at least one channel that still expects frames,
on an uncompressed frame whose sample data is followed by the signature 7,
`ALACDecoder_read` returns a frame whose interleaved array is exactly the
`output_samples * channels` signed `bits_per_sample`-wide values that follow
the frame header, in stream order: index `i * channels + c` holds the value
read for sample position `i` and channel `c`, which is also entry `i` of the
buffer of channel `c`. -/
theorem read_uncompressed_frame_samples (self : decoders_ALACDecoder)
    (hwf : self.WellFormed) (hat : AtUncompressedFrame self)
    (hch : 1 ≤ self.channels) (hsig : frame_signature self = 7) :
    ∃ frame self', ALACDecoder_read self = (.ok frame, self') ∧
      frame.samples =
        (List.range ((frame_header_samples self).toNat * self.channels.toNat)).map
          (frame_value self) ∧
      frame.samples.length = (frame_header_samples self).toNat * self.channels.toNat ∧
      ∀ i c, i < (frame_header_samples self).toNat → c < self.channels.toNat →
        frame.samples[i * self.channels.toNat + c]? =
          some (frame_value self (i * self.channels.toNat + c)) ∧
        ∃ buffer, self'.samples[c]? = some buffer ∧
          buffer[i]? = some (frame_value self (i * self.channels.toNat + c)) := by
  obtain ⟨S, hl, hget, hrun⟩ := read_uncompressed_frame_result self hwf hat.2 hch hsig
  refine ⟨_, _, hrun, rfl, by simp, ?_⟩
  intro i c hi hc
  have hidx : i * self.channels.toNat + c <
      (frame_header_samples self).toNat * self.channels.toNat := by
    have h1 : (i + 1) * self.channels.toNat ≤
        (frame_header_samples self).toNat * self.channels.toNat :=
      Nat.mul_le_mul_right _ hi
    rw [Nat.succ_mul] at h1
    omega
  constructor
  · simp [List.getElem?_map, List.getElem?_range hidx]
  · refine ⟨_, hget c hc, ?_⟩
    simp [List.getElem?_map, List.getElem?_range hi, Nat.add_comm]

/-- C5.  On an uncompressed frame, when the three bits after the sample data
do not read 7, `ALACDecoder_read` ends with the invalid-signature failure (no
frame) and `total_frames` is unchanged; when they read 7, the call does not
end with that failure and leaves the cursor on the first byte boundary at or
after the end of the signature. -/
theorem read_signature_check (self : decoders_ALACDecoder)
    (hwf : self.WellFormed) (hat : AtUncompressedFrame self) :
    (frame_signature self ≠ 7 →
      (ALACDecoder_read self).1 = .error .invalidSignature ∧
      (ALACDecoder_read self).2.total_frames = self.total_frames) ∧
    (frame_signature self = 7 →
      (ALACDecoder_read self).1 ≠ .error .invalidSignature ∧
      (ALACDecoder_read self).2.bitstream.consumed % 8 = 0 ∧
      self.bitstream.consumed + (frame_header_bits self + frame_data_bits self) + 3 ≤
        (ALACDecoder_read self).2.bitstream.consumed ∧
      (ALACDecoder_read self).2.bitstream.consumed <
        self.bitstream.consumed + (frame_header_bits self + frame_data_bits self) + 3 + 8) := by
  constructor
  · intro hsig
    obtain ⟨S, h⟩ := read_uncompressed_bad_signature self hwf hat.2 hsig
    rw [h]
    exact ⟨rfl, rfl⟩
  · intro hsig
    have ha := byte_align_r_consumed
      ⟨self.bitstream.consumed + (frame_header_bits self + frame_data_bits self) + 3,
       self.bitstream.rest.drop (frame_header_bits self + frame_data_bits self + 3)⟩
    by_cases hch : 1 ≤ self.channels
    · obtain ⟨S, -, -, h⟩ := read_uncompressed_frame_result self hwf hat.2 hch hsig
      rw [h]
      exact ⟨(by intro hc; cases hc), ha⟩
    · rw [read_uncompressed_no_channel self hwf hat.2 (by omega) hsig]
      exact ⟨(by intro hc; cases hc), ha⟩

/-- C6.  One call of `ALACDecoder_read`, whatever it ends with, leaves
`total_frames` at most what it was. -/
theorem read_total_frames_le (self : decoders_ALACDecoder) :
    (ALACDecoder_read self).2.total_frames ≤ self.total_frames := by
  unfold ALACDecoder_read
  simp only []
  split
  · exact write_frame_total_frames_le _ 0
  · split
    · exact le_refl _
    · exact le_refl _
    · rename_i frame_header bs1 hhdr
      split
      · split
        · exact le_refl _
        · exact read_signature_total_frames_le _ _
      · obtain ⟨e, bs, wasted, h⟩ := read_compressed_cases
          { self with samples := iaa_reset self.samples, bitstream := bs1 } frame_header
        rw [h]

theorem read_exhausted_state (self : decoders_ALACDecoder)
    (hwf : self.WellFormed) (htot : self.total_frames < 1) (hch : 1 ≤ self.channels) :
    (ALACDecoder_read self).2.WellFormed ∧
    (ALACDecoder_read self).2.total_frames = self.total_frames ∧
    (ALACDecoder_read self).2.channels = self.channels ∧
    (ALACDecoder_read self).2.bits_per_sample = self.bits_per_sample ∧
    (ALACDecoder_read self).2.bitstream = self.bitstream := by
  rw [read_exhausted_result self hwf htot hch]
  refine ⟨⟨?_, hwf.2⟩, rfl, rfl, rfl, rfl⟩
  simp [iaa_reset, hwf.1]

/-- C4, as the code has it.  A decoder with at least one channel and
`total_frames < 1` answers every call of `ALACDecoder_read`, the first and any
number of further ones, with an empty frame (0 frames, no samples), without
moving the cursor and without changing `total_frames`. -/
theorem read_exhausted_empty (self : decoders_ALACDecoder)
    (hwf : self.WellFormed) (htot : self.total_frames < 1) (hch : 1 ≤ self.channels)
    (k : Nat) :
    (ALACDecoder_read (after_reads k self)).1 =
      .ok { frames := 0, channels := self.channels,
            bits_per_sample := self.bits_per_sample,
            samples_length := 0, samples := [] } ∧
    (ALACDecoder_read (after_reads k self)).2.bitstream = self.bitstream ∧
    (ALACDecoder_read (after_reads k self)).2.total_frames = self.total_frames := by
  induction k generalizing self with
  | zero =>
    simp only [after_reads]
    rw [read_exhausted_result self hwf htot hch]
    exact ⟨rfl, rfl, rfl⟩
  | succ k ih =>
    obtain ⟨hwf1, htot1, hch1, hbps1, hbs1⟩ := read_exhausted_state self hwf htot hch
    have h := ih (ALACDecoder_read self).2 hwf1 (by omega) (by omega)
    rw [hch1, hbps1, hbs1, htot1] at h
    simpa only [after_reads] using h

/-- Witness for C4: a stereo decoder with no frame left, called three times in
a row. -/
theorem read_exhausted_empty_witness :
    (decoder_on frame_example 2 16 0 4096).WellFormed ∧
    (decoder_on frame_example 2 16 0 4096).total_frames < 1 ∧
    1 ≤ (decoder_on frame_example 2 16 0 4096).channels ∧
    (ALACDecoder_read (after_reads 2 (decoder_on frame_example 2 16 0 4096))).1 =
      .ok { frames := 0, channels := (decoder_on frame_example 2 16 0 4096).channels,
            bits_per_sample := (decoder_on frame_example 2 16 0 4096).bits_per_sample,
            samples_length := 0, samples := [] } ∧
    (ALACDecoder_read (after_reads 2 (decoder_on frame_example 2 16 0 4096))).2.bitstream =
      (decoder_on frame_example 2 16 0 4096).bitstream ∧
    (ALACDecoder_read (after_reads 2 (decoder_on frame_example 2 16 0 4096))).2.total_frames =
      (decoder_on frame_example 2 16 0 4096).total_frames :=
  ⟨by decide, by decide, by decide,
   read_exhausted_empty (decoder_on frame_example 2 16 0 4096)
     (by decide) (by decide) (by decide) 2⟩

/-- C4, counterexample.  A decoder built for 0 channels has no channel buffer;
with `total_frames = 0` the call reads the size of buffer 0, which does not
exist, and no empty frame is returned. -/
theorem read_exhausted_without_channels :
    (decoder_on frame_example 0 16 0 4096).WellFormed ∧
    (decoder_on frame_example 0 16 0 4096).total_frames < 1 ∧
    (decoder_on frame_example 0 16 0 4096).samples = [] ∧
    (ALACDecoder_read (decoder_on frame_example 0 16 0 4096)).1 = .error .outOfBounds :=
  ⟨by decide, by decide, rfl, rfl⟩

set_option maxRecDepth 8000 in
/-- Witness for C2: the stereo frame with samples 1, -1, 3, -32768. -/
theorem read_uncompressed_frame_samples_witness :
    (decoder_on frame_example 2 16 100 4096).WellFormed ∧
    AtUncompressedFrame (decoder_on frame_example 2 16 100 4096) ∧
    1 ≤ (decoder_on frame_example 2 16 100 4096).channels ∧
    frame_signature (decoder_on frame_example 2 16 100 4096) = 7 ∧
    ∃ frame self',
      ALACDecoder_read (decoder_on frame_example 2 16 100 4096) = (.ok frame, self') ∧
      frame.samples =
        (List.range ((frame_header_samples (decoder_on frame_example 2 16 100 4096)).toNat *
          (decoder_on frame_example 2 16 100 4096).channels.toNat)).map
          (frame_value (decoder_on frame_example 2 16 100 4096)) ∧
      frame.samples.length =
        (frame_header_samples (decoder_on frame_example 2 16 100 4096)).toNat *
          (decoder_on frame_example 2 16 100 4096).channels.toNat ∧
      ∀ i c, i < (frame_header_samples (decoder_on frame_example 2 16 100 4096)).toNat →
        c < (decoder_on frame_example 2 16 100 4096).channels.toNat →
        frame.samples[i * (decoder_on frame_example 2 16 100 4096).channels.toNat + c]? =
          some (frame_value (decoder_on frame_example 2 16 100 4096)
            (i * (decoder_on frame_example 2 16 100 4096).channels.toNat + c)) ∧
        ∃ buffer, self'.samples[c]? = some buffer ∧
          buffer[i]? = some (frame_value (decoder_on frame_example 2 16 100 4096)
            (i * (decoder_on frame_example 2 16 100 4096).channels.toNat + c)) :=
  ⟨by decide, by decide, by decide, by decide,
   read_uncompressed_frame_samples (decoder_on frame_example 2 16 100 4096)
     (by decide) (by decide) (by decide) (by decide)⟩

set_option maxRecDepth 8000 in
/-- Witness for C5: the stereo frame whose signature bits read 5. -/
theorem read_signature_check_witness :
    (decoder_on frame_example_bad_signature 2 16 100 4096).WellFormed ∧
    AtUncompressedFrame (decoder_on frame_example_bad_signature 2 16 100 4096) ∧
    frame_signature (decoder_on frame_example_bad_signature 2 16 100 4096) ≠ 7 ∧
    (ALACDecoder_read (decoder_on frame_example_bad_signature 2 16 100 4096)).1 =
      .error .invalidSignature ∧
    (ALACDecoder_read (decoder_on frame_example_bad_signature 2 16 100 4096)).2.total_frames =
      (decoder_on frame_example_bad_signature 2 16 100 4096).total_frames :=
  ⟨by decide, by decide, by decide,
   (read_signature_check (decoder_on frame_example_bad_signature 2 16 100 4096)
     (by decide) (by decide)).1 (by decide)⟩

theorem iaa_append_length (s s' : ia_array) (c : Nat) (v : Int)
    (h : iaa_append s c v = some s') : s'.length = s.length := by
  unfold iaa_append at h
  split at h
  · simp only [Option.some.injEq] at h
    subst h
    simp
  · cases h

theorem read_uncompressed_channels_length (w k c : Nat) (bs : Bitstream) (s : ia_array) :
    (read_uncompressed_channels w k c bs s).2.2.length = s.length := by
  induction k generalizing c bs s with
  | zero => rfl
  | succ k ih =>
    rw [read_uncompressed_channels]
    split
    · rfl
    · split
      · rfl
      · rename_i s1 h1
        rw [ih, iaa_append_length _ _ _ _ h1]

theorem read_uncompressed_samples_length (C w n : Nat) (bs : Bitstream) (s : ia_array) :
    (read_uncompressed_samples C w n bs s).2.2.length = s.length := by
  induction n generalizing bs s with
  | zero => rfl
  | succ n ih =>
    rw [read_uncompressed_samples]
    have h1 := read_uncompressed_channels_length w C 0 bs s
    split
    · rename_i e bs1 s1 heq
      rw [heq] at h1
      exact h1
    · rename_i bs1 s1 heq
      rw [heq] at h1
      rw [ih]
      exact h1

theorem read_wasted_bits_channels_length (w k c : Nat) (bs : Bitstream) (s : ia_array) :
    (read_wasted_bits_channels w k c bs s).2.2.length = s.length := by
  induction k generalizing c bs s with
  | zero => rfl
  | succ k ih =>
    rw [read_wasted_bits_channels]
    split
    · rfl
    · split
      · rfl
      · rename_i s1 h1
        rw [ih, iaa_append_length _ _ _ _ h1]

theorem read_wasted_bits_samples_length (C w n : Nat) (bs : Bitstream) (s : ia_array) :
    (read_wasted_bits_samples C w n bs s).2.2.length = s.length := by
  induction n generalizing bs s with
  | zero => rfl
  | succ n ih =>
    rw [read_wasted_bits_samples]
    have h1 := read_wasted_bits_channels_length w C 0 bs s
    split
    · rename_i e bs1 s1 heq
      rw [heq] at h1
      exact h1
    · rename_i bs1 s1 heq
      rw [heq] at h1
      rw [ih]
      exact h1

theorem read_wasted_bits_length (bs : Bitstream) (s : ia_array) (n : Int) (C w : Nat) :
    (ALACDecoder_read_wasted_bits bs s n C w).2.2.length = s.length := by
  unfold ALACDecoder_read_wasted_bits
  have h1 := read_wasted_bits_samples_length C w n.toNat bs s
  split
  · rename_i e bs1 s1 heq
    rw [heq] at h1
    exact h1
  · rename_i bs1 s1 heq
    rw [heq] at h1
    exact h1

theorem write_frame_buffers (self : decoders_ALACDecoder) (os : Int) :
    (write_frame self os).2.samples = self.samples ∧
    (write_frame self os).2.wasted_bits_samples = self.wasted_bits_samples ∧
    (write_frame self os).2.channels = self.channels ∧
    (write_frame self os).2.bitstream = self.bitstream := by
  rcases write_frame_cases self os with h | ⟨channel0, out, -, h⟩ <;> rw [h] <;>
    exact ⟨rfl, rfl, rfl, rfl⟩

theorem read_signature_buffers (self : decoders_ALACDecoder) (os : Int) :
    (read_signature self os).2.samples = self.samples ∧
    (read_signature self os).2.wasted_bits_samples = self.wasted_bits_samples ∧
    (read_signature self os).2.channels = self.channels := by
  unfold read_signature
  split
  · exact ⟨rfl, rfl, rfl⟩
  · split
    · exact ⟨rfl, rfl, rfl⟩
    · have h := write_frame_buffers
        { self with bitstream := byte_align_r (by assumption) } os
      exact ⟨h.1, h.2.1, h.2.2.1⟩

theorem read_compressed_buffers (self : decoders_ALACDecoder)
    (frame_header : alac_frame_header) :
    (read_compressed self frame_header).2.samples = self.samples ∧
    (read_compressed self frame_header).2.wasted_bits_samples.length =
      self.wasted_bits_samples.length ∧
    (read_compressed self frame_header).2.channels = self.channels ∧
    (read_compressed self frame_header).2.total_frames = self.total_frames := by
  unfold read_compressed
  split
  · exact ⟨rfl, rfl, rfl, rfl⟩
  · split
    · exact ⟨rfl, rfl, rfl, rfl⟩
    · split
      · exact ⟨rfl, rfl, rfl, rfl⟩
      · rename_i bs3 _
        split
        · have hl := read_wasted_bits_length bs3 self.wasted_bits_samples
            (to_int frame_header.output_samples) frame_header.channels
            (frame_header.wasted_bits * 8)
          split
          · rename_i heq
            rw [heq] at hl
            exact ⟨rfl, hl, rfl, rfl⟩
          · rename_i heq
            rw [heq] at hl
            exact ⟨rfl, hl, rfl, rfl⟩
        · exact ⟨rfl, rfl, rfl, rfl⟩

theorem read_buffers_shape (self : decoders_ALACDecoder) :
    (ALACDecoder_read self).2.samples.length = self.samples.length ∧
    (ALACDecoder_read self).2.wasted_bits_samples.length = self.wasted_bits_samples.length ∧
    (ALACDecoder_read self).2.channels = self.channels := by
  have hreset : (iaa_reset self.samples).length = self.samples.length := by
    simp [iaa_reset]
  unfold ALACDecoder_read
  simp only []
  split
  · have h := write_frame_buffers { self with samples := iaa_reset self.samples } 0
    exact ⟨by rw [h.1]; exact hreset, by rw [h.2.1], h.2.2.1⟩
  · split
    · exact ⟨hreset, rfl, rfl⟩
    · exact ⟨hreset, rfl, rfl⟩
    · rename_i frame_header bs1 hhdr
      split
      · have hl := read_uncompressed_samples_length self.channels.toNat
          self.bits_per_sample.toNat (to_int frame_header.output_samples).toNat bs1
          (iaa_reset self.samples)
        split
        · rename_i heq
          rw [heq] at hl
          exact ⟨by rw [← hreset]; exact hl, rfl, rfl⟩
        · rename_i bs2 samples2 heq
          rw [heq] at hl
          have h := read_signature_buffers
            { self with samples := samples2, bitstream := bs2 }
            (to_int frame_header.output_samples)
          exact ⟨by rw [h.1, ← hreset]; exact hl, by rw [h.2.1], h.2.2⟩
      · have h := read_compressed_buffers
          { self with samples := iaa_reset self.samples, bitstream := bs1 } frame_header
        exact ⟨by rw [h.1]; exact hreset, by rw [h.2.1], h.2.2.1⟩

theorem read_wellFormed (self : decoders_ALACDecoder) (hwf : self.WellFormed) :
    (ALACDecoder_read self).2.WellFormed := by
  obtain ⟨h1, h2, h3⟩ := read_buffers_shape self
  exact ⟨by rw [h1, h3]; exact hwf.1, by rw [h2, h3]; exact hwf.2⟩

theorem seek_mdat_fields (self : decoders_ALACDecoder) :
    (ALACDecoder_seek_mdat self).2 =
      { self with bitstream := (ALACDecoder_seek_mdat self).2.bitstream } := by
  unfold ALACDecoder_seek_mdat
  rfl

theorem init_wellFormed (file : List Bool)
    (sample_rate channels channel_mask bits_per_sample total_frames
      max_samples_per_frame history_mult initial_history kmodifier : Int)
    (self : decoders_ALACDecoder)
    (h : ALACDecoder_init file sample_rate channels channel_mask bits_per_sample
      total_frames max_samples_per_frame history_mult initial_history kmodifier = .ok self) :
    self.WellFormed ∧ self.channels = channels ∧ self.total_frames = total_frames ∧
    self.bits_per_sample = bits_per_sample ∧
    self.max_samples_per_frame = max_samples_per_frame := by
  unfold ALACDecoder_init at h
  simp only at h
  split at h
  · cases h
  · cases h
  · rename_i self1 heq
    simp only [Except.ok.injEq] at h
    subst h
    have hf := seek_mdat_fields
      { bitstream := bs_open file, sample_rate := sample_rate, channels := channels,
        channel_mask := channel_mask, bits_per_sample := bits_per_sample,
        total_frames := total_frames, max_samples_per_frame := max_samples_per_frame,
        history_mult := history_mult, initial_history := initial_history,
        kmodifier := kmodifier, samples := iaa_init channels,
        wasted_bits_samples := iaa_init channels }
    rw [heq] at hf
    simp only at hf
    rw [hf]
    exact ⟨⟨by simp [iaa_init], by simp [iaa_init]⟩, rfl, rfl, rfl, rfl⟩


/-! ## Wasted bits -/

theorem read_wasted_bits_channels_ok (w k c : Nat) (bs : Bitstream) (s : ia_array)
    (hlen : c + k ≤ s.length) (hbits : k * w ≤ bs.rest.length) :
    ∃ s', read_wasted_bits_channels w k c bs s =
        (.ok (), { consumed := bs.consumed + k * w, rest := bs.rest.drop (k * w) }, s') ∧
      s'.length = s.length ∧
      ∀ j, s'[j]? =
        if c ≤ j ∧ j < c + k then
          (s[j]?).map (fun b => b ++ [(field bs.rest ((j - c) * w) w : Int)])
        else s[j]? := by
  induction k generalizing c bs s with
  | zero =>
    refine ⟨s, by simp [read_wasted_bits_channels], rfl, ?_⟩
    intro j
    rw [if_neg (by omega)]
  | succ k ih =>
    have hmul : (k + 1) * w = k * w + w := Nat.succ_mul k w
    have hw : w ≤ bs.rest.length := by omega
    have hc : c < s.length := by omega
    rw [read_wasted_bits_channels, read_bits_ok bs w hw]
    simp only []
    rw [iaa_append_ok s c _ hc]
    simp only []
    obtain ⟨s', hrun, hl, hget⟩ := ih (c + 1)
      { consumed := bs.consumed + w, rest := bs.rest.drop w }
      (s.set c (s[c] ++ [(field bs.rest 0 w : Int)]))
      (by simp; omega) (by simp; omega)
    refine ⟨s', ?_, by simpa using hl, ?_⟩
    · rw [hrun]
      simp only [List.drop_drop, Prod.mk.injEq, Bitstream.mk.injEq, true_and, and_true]
      refine ⟨by omega, by congr 1; omega⟩
    · intro j
      rw [hget j]
      simp only [field_drop, List.getElem?_set]
      by_cases hj : c = j
      · subst hj
        simp [hc]
      · by_cases hj2 : c + 1 ≤ j ∧ j < c + 1 + k
        · have e : w + (j - (c + 1)) * w = (j - c) * w := by
            have : j - c = (j - (c + 1)) + 1 := by omega
            rw [this, Nat.succ_mul]; omega
          rw [if_pos hj2, if_neg hj, if_pos (by omega), e]
        · rw [if_neg hj2, if_neg hj, if_neg (by omega)]

theorem read_wasted_bits_samples_ok (C w n : Nat) (bs : Bitstream) (s : ia_array)
    (hlen : C ≤ s.length) (hbits : n * (C * w) ≤ bs.rest.length) :
    ∃ s', read_wasted_bits_samples C w n bs s =
        (.ok (), { consumed := bs.consumed + n * (C * w),
                   rest := bs.rest.drop (n * (C * w)) }, s') ∧
      s'.length = s.length ∧
      (∀ j, j < C → s'[j]? =
        (s[j]?).map (fun b => b ++
          (List.range n).map (fun i => (field bs.rest ((i * C + j) * w) w : Int)))) ∧
      (∀ j, C ≤ j → s'[j]? = s[j]?) := by
  induction n generalizing bs s with
  | zero =>
    refine ⟨s, by simp [read_wasted_bits_samples], rfl, ?_, fun j _ => rfl⟩
    intro j _
    simp
  | succ n ih =>
    have hmul : (n + 1) * (C * w) = n * (C * w) + C * w := Nat.succ_mul n (C * w)
    obtain ⟨s1, hrun1, hl1, hget1⟩ := read_wasted_bits_channels_ok w C 0 bs s
      (by omega) (by omega)
    obtain ⟨s', hrun, hl, hget, hrest⟩ := ih
      { consumed := bs.consumed + C * w, rest := bs.rest.drop (C * w) } s1
      (by omega) (by simp; omega)
    refine ⟨s', ?_, by omega, ?_, ?_⟩
    · rw [read_wasted_bits_samples, hrun1]
      simp only []
      rw [hrun]
      simp only [List.drop_drop, Prod.mk.injEq, Bitstream.mk.injEq, true_and, and_true]
      refine ⟨by omega, by congr 1; omega⟩
    · intro j hj
      rw [hget j hj, hget1 j, if_pos (by omega)]
      simp only [Option.map_map, field_drop, Nat.sub_zero]
      congr 1
      funext b
      simp only [Function.comp, List.range_succ_eq_map, List.map_cons, List.map_map,
        List.append_assoc, List.singleton_append, Nat.zero_mul, Nat.zero_add]
      congr 2
      apply List.map_congr_left
      intro i _
      simp only [Function.comp, Nat.succ_eq_add_one]
      congr 2
      ring
    · intro j hj
      rw [hrest j hj, hget1 j, if_neg (by omega)]

theorem read_wasted_bits_ok (bs : Bitstream) (s : ia_array) (sample_count : Int)
    (c w : Nat) (hlen : c ≤ s.length)
    (hbits : sample_count.toNat * (c * w) ≤ bs.rest.length) :
    ∃ s', ALACDecoder_read_wasted_bits bs s sample_count c w =
        (.ok .OK, { consumed := bs.consumed + sample_count.toNat * (c * w),
                    rest := bs.rest.drop (sample_count.toNat * (c * w)) }, s') ∧
      s'.length = s.length ∧
      (∀ j, j < c → s'[j]? =
        (s[j]?).map (fun b => b ++
          (List.range sample_count.toNat).map
            (fun i => (field bs.rest ((i * c + j) * w) w : Int)))) ∧
      (∀ j, c ≤ j → s'[j]? = s[j]?) := by
  obtain ⟨s', hrun, hl, hget, hrest⟩ :=
    read_wasted_bits_samples_ok c w sample_count.toNat bs s hlen hbits
  refine ⟨s', ?_, hl, hget, hrest⟩
  unfold ALACDecoder_read_wasted_bits
  rw [hrun]

theorem read_compressed_no_wasted (self : decoders_ALACDecoder)
    (frame_header : alac_frame_header) (h : frame_header.wasted_bits = 0) :
    (read_compressed self frame_header).2.wasted_bits_samples = self.wasted_bits_samples := by
  unfold read_compressed
  split
  · rfl
  · split
    · rfl
    · split
      · rfl
      · rw [if_neg (by omega)]

theorem read_no_wasted (self : decoders_ALACDecoder)
    (h : field self.bitstream.rest 20 2 = 0) :
    (ALACDecoder_read self).2.wasted_bits_samples = self.wasted_bits_samples := by
  unfold ALACDecoder_read
  simp only []
  split
  · exact (write_frame_buffers _ 0).2.1
  · split
    · rfl
    · rfl
    · rename_i frame_header bs1 hhdr
      split
      · split
        · rfl
        · exact (read_signature_buffers _ _).2.1
      · have hw : frame_header.wasted_bits = 0 := by
          by_cases hb : (if field self.bitstream.rest 19 1 = 1 then 55 else 23) ≤
              self.bitstream.rest.length
          · rw [read_frame_header_ok self.bitstream self.max_samples_per_frame hb] at hhdr
            simp only [Prod.mk.injEq, Except.ok.injEq, true_and] at hhdr
            rw [← hhdr.1]
            exact h
          · have := read_frame_header_short self.bitstream self.max_samples_per_frame hb
            rw [hhdr] at this
            cases this
        exact read_compressed_no_wasted _ frame_header hw

/-- C13.  Started on an array whose buffers are empty, with at least `channels`
of them, on a stream that holds `sample_count * channels * w` bits,
`ALACDecoder_read_wasted_bits` returns `OK`, advances the cursor by exactly
that many bits and leaves in each of the first `channels` buffers exactly
`sample_count` entries, entry `i` of buffer `ch` being the unsigned `w`-bit
field number `i * channels + ch` of the stream.  This holds for every width
`w`, so for the widths 8, 16 and 24 of the wasted-bits codes 1, 2 and 3.
`ALACDecoder_read` leaves the wasted-bits buffers as they were when the code
in the frame header is 0. -/
theorem read_wasted_bits_layout (bs : Bitstream) (wasted : ia_array) (sample_count : Int)
    (channels w : Nat) (hn : 0 ≤ sample_count)
    (hlen : channels ≤ wasted.length) (hempty : ∀ b ∈ wasted, b = [])
    (hbits : sample_count.toNat * (channels * w) ≤ bs.rest.length) :
    (∃ wasted', ALACDecoder_read_wasted_bits bs wasted sample_count channels w =
        (.ok .OK,
         { consumed := bs.consumed + sample_count.toNat * (channels * w),
           rest := bs.rest.drop (sample_count.toNat * (channels * w)) }, wasted') ∧
      ∀ ch, ch < channels → ∃ buffer, wasted'[ch]? = some buffer ∧
        (buffer.length : Int) = sample_count ∧
        ∀ i, i < sample_count.toNat →
          buffer[i]? = some (field bs.rest ((i * channels + ch) * w) w : Int)) ∧
    (∀ self : decoders_ALACDecoder, field self.bitstream.rest 20 2 = 0 →
      (ALACDecoder_read self).2.wasted_bits_samples = self.wasted_bits_samples) := by
  refine ⟨?_, fun self h => read_no_wasted self h⟩
  obtain ⟨s', hrun, hl, hget, -⟩ :=
    read_wasted_bits_ok bs wasted sample_count channels w hlen hbits
  refine ⟨s', hrun, ?_⟩
  intro ch hch
  have hch' : ch < wasted.length := by omega
  have hb : wasted[ch]? = some [] := by
    rw [List.getElem?_eq_getElem hch']
    exact congrArg some (hempty _ (List.getElem_mem _))
  refine ⟨_, by rw [hget ch hch, hb]; rfl, ?_, ?_⟩
  · simp only [List.nil_append, List.length_map, List.length_range]
    exact Int.toNat_of_nonneg hn
  · intro i hi
    simp [List.getElem?_map, List.getElem?_range hi]

/-- Witness for C13: two sample positions of two channels with the code 1
(width 8), holding 1, 2, 3, 4. -/
theorem read_wasted_bits_layout_witness :
    (0 : Int) ≤ 2 ∧ 2 ≤ (iaa_init 2).length ∧ (∀ b ∈ iaa_init 2, b = []) ∧
    (2 : Int).toNat * (2 * (1 * 8)) ≤ wasted_example.rest.length ∧
    ∃ wasted', ALACDecoder_read_wasted_bits wasted_example (iaa_init 2) 2 2 (1 * 8) =
        (.ok .OK,
         { consumed := wasted_example.consumed + (2 : Int).toNat * (2 * (1 * 8)),
           rest := wasted_example.rest.drop ((2 : Int).toNat * (2 * (1 * 8))) }, wasted') ∧
      ∀ ch, ch < 2 → ∃ buffer, wasted'[ch]? = some buffer ∧
        (buffer.length : Int) = 2 ∧
        ∀ i, i < (2 : Int).toNat →
          buffer[i]? =
            some (field wasted_example.rest ((i * 2 + ch) * (1 * 8)) (1 * 8) : Int) :=
  ⟨by decide, by decide, by decide, by decide,
   (read_wasted_bits_layout wasted_example (iaa_init 2) 2 2 (1 * 8)
     (by decide) (by decide) (by decide) (by decide)).1⟩

/-- C15.  With `total_frames >= 1` and a frame header in the stream whose
`is_not_compressed` bit is 0, `ALACDecoder_read` ends with an error, whatever
follows the header: no frame is returned and `total_frames` is unchanged. -/
theorem read_compressed_fails (self : decoders_ALACDecoder)
    (htot : 1 ≤ self.total_frames)
    (hbits : frame_header_bits self ≤ self.bitstream.rest.length)
    (hc : field self.bitstream.rest 22 1 = 0) :
    (∃ e, (ALACDecoder_read self).1 = .error e) ∧
    (ALACDecoder_read self).2.total_frames = self.total_frames := by
  obtain ⟨e, bs, wasted, h⟩ := read_compressed_frame self htot hbits hc
  rw [h]
  exact ⟨⟨e, rfl⟩, rfl⟩


set_option maxRecDepth 8000 in
/-- Witness for C15: a compressed stereo frame with wasted bits. -/
theorem read_compressed_fails_witness :
    1 ≤ (decoder_on two_compressed_frames 2 16 100 4096).total_frames ∧
    frame_header_bits (decoder_on two_compressed_frames 2 16 100 4096) ≤
      (decoder_on two_compressed_frames 2 16 100 4096).bitstream.rest.length ∧
    field (decoder_on two_compressed_frames 2 16 100 4096).bitstream.rest 22 1 = 0 ∧
    (∃ e, (ALACDecoder_read (decoder_on two_compressed_frames 2 16 100 4096)).1 = .error e) ∧
    (ALACDecoder_read (decoder_on two_compressed_frames 2 16 100 4096)).2.total_frames =
      (decoder_on two_compressed_frames 2 16 100 4096).total_frames :=
  ⟨by decide, by decide, by decide,
   read_compressed_fails (decoder_on two_compressed_frames 2 16 100 4096)
     (by decide) (by decide) (by decide)⟩

set_option maxRecDepth 8000 in
/-- C16, at the failing input.  A decoder built for one channel has one
wasted-bits buffer; on a compressed frame whose header announces two channels
and wasted bits, `ALACDecoder_read_wasted_bits` is handed the header's channel
count: the first byte goes to buffer 0, the second is appended at channel
index 1, outside the buffers. -/
theorem read_wasted_bits_channel_index_outside :
    (decoder_on mono_frame_stereo_header 1 16 100 4096).WellFormed ∧
    (decoder_on mono_frame_stereo_header 1 16 100 4096).wasted_bits_samples.length = 1 ∧
    field (decoder_on mono_frame_stereo_header 1 16 100 4096).bitstream.rest 0 3 + 1 = 2 ∧
    iaa_append [[17]] 1 34 = none ∧
    ALACDecoder_read (decoder_on mono_frame_stereo_header 1 16 100 4096) =
      (.error .outOfBounds,
       { decoder_on mono_frame_stereo_header 1 16 100 4096 with
         bitstream := { consumed := 103, rest := [] }
         wasted_bits_samples := [[17]] }) :=
  ⟨by decide, by decide, by decide, rfl, rfl⟩

set_option maxRecDepth 8000 in
/-- C17, at the failing input.  Two compressed frames with one sample position
each and wasted bits 1, 2 and 3, 4 are read by two successive calls: after the
second call each wasted-bits buffer holds two entries, the one of the first
call still in front, while the second frame's `output_samples` is 1. -/
theorem read_wasted_bits_accumulate :
    (after_reads 1 (decoder_on two_compressed_frames 2 16 100 4096)).wasted_bits_samples =
      [[1], [2]] ∧
    frame_output_samples (after_reads 1 (decoder_on two_compressed_frames 2 16 100 4096)) = 1 ∧
    (after_reads 2 (decoder_on two_compressed_frames 2 16 100 4096)).wasted_bits_samples =
      [[1, 3], [2, 4]] ∧
    (after_reads 2 (decoder_on two_compressed_frames 2 16 100 4096)).samples = [[], []] :=
  ⟨rfl, by decide, rfl, rfl⟩


/-! ## The header fields the uncompressed branch does not use -/

theorem field_append_right (a b : List Bool) (off len : Nat) :
    field (a ++ b) (a.length + off) len = field b off len := by
  simp [field, List.drop_append]

theorem field_append_right' (a b : List Bool) (n off len : Nat) (h : a.length = n) :
    field (a ++ b) (n + off) len = field b off len := by
  subst h
  exact field_append_right a b off len

theorem read_after_header (self : decoders_ALACDecoder)
    (htot : 1 ≤ self.total_frames)
    (hbits : frame_header_bits self ≤ self.bitstream.rest.length)
    (hnc : field self.bitstream.rest 22 1 = 1) :
    ALACDecoder_read self =
      match read_uncompressed_samples self.channels.toNat self.bits_per_sample.toNat
          (frame_header_samples self).toNat
          { consumed := self.bitstream.consumed + frame_header_bits self,
            rest := self.bitstream.rest.drop (frame_header_bits self) }
          (iaa_reset self.samples) with
      | (.error e, bs2, samples2) =>
        (.error e,
         { bitstream := bs2, sample_rate := self.sample_rate, channels := self.channels,
           channel_mask := self.channel_mask, bits_per_sample := self.bits_per_sample,
           total_frames := self.total_frames,
           max_samples_per_frame := self.max_samples_per_frame,
           history_mult := self.history_mult, initial_history := self.initial_history,
           kmodifier := self.kmodifier, samples := samples2,
           wasted_bits_samples := self.wasted_bits_samples })
      | (.ok (), bs2, samples2) =>
        read_signature
          { bitstream := bs2, sample_rate := self.sample_rate, channels := self.channels,
            channel_mask := self.channel_mask, bits_per_sample := self.bits_per_sample,
            total_frames := self.total_frames,
            max_samples_per_frame := self.max_samples_per_frame,
            history_mult := self.history_mult, initial_history := self.initial_history,
            kmodifier := self.kmodifier, samples := samples2,
            wasted_bits_samples := self.wasted_bits_samples }
          (frame_header_samples self) := by
  have hhdr := read_frame_header_ok self.bitstream self.max_samples_per_frame hbits
  unfold ALACDecoder_read
  simp only [show ¬ self.total_frames < 1 by omega, if_false]
  rw [hhdr]
  simp only [hnc, ne_eq, one_ne_zero, not_false_eq_true, if_true]
  rfl

theorem uncompressed_header_facts (ch res wb payload : List Bool) (hs : Bool)
    (hch : ch.length = 3) (hres : res.length = 16) (hwb : wb.length = 2) :
    (uncompressed_header ch res hs wb ++ payload).length = 23 + payload.length ∧
    field (uncompressed_header ch res hs wb ++ payload) 19 1 = hs.toNat ∧
    field (uncompressed_header ch res hs wb ++ payload) 22 1 = 1 ∧
    (uncompressed_header ch res hs wb ++ payload).drop 23 = payload ∧
    field (uncompressed_header ch res hs wb ++ payload) 23 32 = field payload 0 32 := by
  have hlen : (uncompressed_header ch res hs wb).length = 23 := by
    simp [uncompressed_header, hch, hres, hwb]
  have hshape : uncompressed_header ch res hs wb ++ payload =
      ch ++ (res ++ ([hs] ++ (wb ++ ([true] ++ payload)))) := by
    simp [uncompressed_header, List.append_assoc]
  refine ⟨by simp [hlen], ?_, ?_, List.drop_left' hlen, ?_⟩
  · rw [hshape, field_append_right' ch _ 3 16 1 hch, field_append_right' res _ 16 0 1 hres]
    cases hs <;> rfl
  · rw [hshape, field_append_right' ch _ 3 19 1 hch, field_append_right' res _ 16 3 1 hres,
      field_append_right' [hs] _ 1 2 1 rfl, field_append_right' wb _ 2 0 1 hwb]
    rfl
  · exact field_append_right' _ payload 23 0 32 hlen

theorem write_frame_bitstream (self : decoders_ALACDecoder) (bs : Bitstream) (os : Int) :
    write_frame { self with bitstream := bs } os =
      ((write_frame self os).1, { (write_frame self os).2 with bitstream := bs }) := by
  unfold write_frame
  simp only []
  split
  · rfl
  · split <;> rfl

theorem read_exhausted_with_stream (self : decoders_ALACDecoder) (pos : Nat)
    (bits : List Bool) (htot : self.total_frames < 1) :
    ALACDecoder_read (with_stream self pos bits) =
      ((write_frame { self with samples := iaa_reset self.samples } 0).1,
       { (write_frame { self with samples := iaa_reset self.samples } 0).2 with
         bitstream := { consumed := pos, rest := bits } }) := by
  unfold ALACDecoder_read
  simp only [with_stream, htot, if_true]
  exact write_frame_bitstream { self with samples := iaa_reset self.samples } _ 0

theorem read_uncompressed_with_stream (self : decoders_ALACDecoder) (pos : Nat)
    (ch res wb payload : List Bool) (hs : Bool)
    (hch : ch.length = 3) (hres : res.length = 16) (hwb : wb.length = 2)
    (hsize : (if hs then 32 else 0) ≤ payload.length) (htot : 1 ≤ self.total_frames) :
    ALACDecoder_read (with_stream self pos (uncompressed_header ch res hs wb ++ payload)) =
      match read_uncompressed_samples self.channels.toNat self.bits_per_sample.toNat
          (to_int (if hs then (field payload 0 32 : Int)
            else self.max_samples_per_frame)).toNat
          { consumed := pos + (if hs then 55 else 23),
            rest := payload.drop (if hs then 32 else 0) }
          (iaa_reset self.samples) with
      | (.error e, bs2, samples2) =>
        (.error e,
         { bitstream := bs2, sample_rate := self.sample_rate, channels := self.channels,
           channel_mask := self.channel_mask, bits_per_sample := self.bits_per_sample,
           total_frames := self.total_frames,
           max_samples_per_frame := self.max_samples_per_frame,
           history_mult := self.history_mult, initial_history := self.initial_history,
           kmodifier := self.kmodifier, samples := samples2,
           wasted_bits_samples := self.wasted_bits_samples })
      | (.ok (), bs2, samples2) =>
        read_signature
          { bitstream := bs2, sample_rate := self.sample_rate, channels := self.channels,
            channel_mask := self.channel_mask, bits_per_sample := self.bits_per_sample,
            total_frames := self.total_frames,
            max_samples_per_frame := self.max_samples_per_frame,
            history_mult := self.history_mult, initial_history := self.initial_history,
            kmodifier := self.kmodifier, samples := samples2,
            wasted_bits_samples := self.wasted_bits_samples }
          (to_int (if hs then (field payload 0 32 : Int)
            else self.max_samples_per_frame)) := by
  obtain ⟨hlen, h19, h22, hdrop, h23⟩ := uncompressed_header_facts ch res wb payload hs hch hres hwb
  have hH : frame_header_bits
      (with_stream self pos (uncompressed_header ch res hs wb ++ payload)) =
      if hs then 55 else 23 := by
    simp only [frame_header_bits, with_stream, h19]
    cases hs <;> rfl
  have hS : frame_header_samples
      (with_stream self pos (uncompressed_header ch res hs wb ++ payload)) =
      to_int (if hs then (field payload 0 32 : Int) else self.max_samples_per_frame) := by
    simp only [frame_header_samples, with_stream, h19, h23]
    cases hs <;> rfl
  have hD : (uncompressed_header ch res hs wb ++ payload).drop (if hs then 55 else 23) =
      payload.drop (if hs then 32 else 0) := by
    cases hs
    · simpa using hdrop
    · have : (55 : Nat) = 23 + 32 := rfl
      simp only [if_true]
      rw [this, ← List.drop_drop, hdrop]
  rw [read_after_header (with_stream self pos (uncompressed_header ch res hs wb ++ payload))
    htot
    (by rw [hH]; simp only [with_stream, hlen]; cases hs <;> simp at hsize ⊢; omega)
    (by simpa only [with_stream] using h22)]
  rw [hH, hS]
  simp only [with_stream, hD]

/-- C18.  Two streams that hold an uncompressed frame and differ only in the
channel field, the reserved bits and the wasted-bits code of the frame header
give, from the same decoder state, the same result of `ALACDecoder_read`, the
same `total_frames` and the same sample buffers; when the decoder still
expects frames the two calls agree entirely, final cursor included. -/
theorem read_ignores_unused_header_fields (self : decoders_ALACDecoder) (pos : Nat)
    (ch1 res1 wb1 ch2 res2 wb2 payload : List Bool) (hs : Bool)
    (hch1 : ch1.length = 3) (hres1 : res1.length = 16) (hwb1 : wb1.length = 2)
    (hch2 : ch2.length = 3) (hres2 : res2.length = 16) (hwb2 : wb2.length = 2)
    (hsize : (if hs then 32 else 0) ≤ payload.length) :
    (ALACDecoder_read
        (with_stream self pos (uncompressed_header ch1 res1 hs wb1 ++ payload))).1 =
      (ALACDecoder_read
        (with_stream self pos (uncompressed_header ch2 res2 hs wb2 ++ payload))).1 ∧
    (ALACDecoder_read
        (with_stream self pos (uncompressed_header ch1 res1 hs wb1 ++ payload))).2.total_frames =
      (ALACDecoder_read
        (with_stream self pos (uncompressed_header ch2 res2 hs wb2 ++ payload))).2.total_frames ∧
    (ALACDecoder_read
        (with_stream self pos (uncompressed_header ch1 res1 hs wb1 ++ payload))).2.samples =
      (ALACDecoder_read
        (with_stream self pos (uncompressed_header ch2 res2 hs wb2 ++ payload))).2.samples ∧
    (1 ≤ self.total_frames →
      ALACDecoder_read
          (with_stream self pos (uncompressed_header ch1 res1 hs wb1 ++ payload)) =
        ALACDecoder_read
          (with_stream self pos (uncompressed_header ch2 res2 hs wb2 ++ payload))) := by
  by_cases htot : 1 ≤ self.total_frames
  · have h : ALACDecoder_read
          (with_stream self pos (uncompressed_header ch1 res1 hs wb1 ++ payload)) =
        ALACDecoder_read
          (with_stream self pos (uncompressed_header ch2 res2 hs wb2 ++ payload)) := by
      rw [read_uncompressed_with_stream self pos ch1 res1 wb1 payload hs hch1 hres1 hwb1
          hsize htot,
        read_uncompressed_with_stream self pos ch2 res2 wb2 payload hs hch2 hres2 hwb2
          hsize htot]
    rw [h]
    exact ⟨rfl, rfl, rfl, fun _ => rfl⟩
  · rw [read_exhausted_with_stream self pos _ (by omega),
      read_exhausted_with_stream self pos _ (by omega)]
    exact ⟨rfl, rfl, rfl, fun h => absurd h htot⟩

/-! ## Atoms that declare less than 8 bytes -/

theorem seek_mdat_loop_exit (st_size i : Nat) (bs : Bitstream) (hi : ¬ i < st_size) :
    seek_mdat_loop st_size i bs = (.ok .ERROR, bs) := by
  rw [seek_mdat_loop]
  simp only [hi, if_false]

theorem seek_mdat_loop_short (st_size i : Nat) (bs : Bitstream) (hi : i < st_size)
    (hshort : bs.rest.length < 64) :
    (seek_mdat_loop st_size i bs).1 = .error .truncated := by
  rw [seek_mdat_loop]
  simp only [hi, if_true]
  by_cases h32 : 32 ≤ bs.rest.length
  · split
    · rename_i e h
      rw [read_bits_ok bs 32 h32] at h
      cases h
    · rename_i a b1 h
      rw [read_bits_ok bs 32 h32] at h
      simp only [Except.ok.injEq, Prod.mk.injEq] at h
      obtain ⟨-, rfl⟩ := h
      split
      · rename_i e h'
        rw [read_bits_truncated _ 32 (by simp; omega)] at h'
        simp only [Except.error.injEq] at h'
        subst h'
        rfl
      · rename_i t b2 h'
        rw [read_bits_truncated _ 32 (by simp; omega)] at h'
        cases h'
  · split
    · rename_i e h
      rw [read_bits_truncated bs 32 (by omega)] at h
      simp only [Except.error.injEq] at h
      subst h
      rfl
    · rename_i a b1 h
      rw [read_bits_truncated bs 32 (by omega)] at h
      cases h

theorem seek_mdat_loop_small_size (st_size i c size type : Nat) (tail : List Bool)
    (hi : i < st_size) (hs : size < 8) (ht : type < 2 ^ 32) (hm : type ≠ 0x6D646174) :
    seek_mdat_loop st_size i
        { consumed := c, rest := nat_bits 32 size ++ (nat_bits 32 type ++ tail) } =
      seek_mdat_loop st_size (i + size)
        { consumed := c + 64 + 8 * (4294967288 + size),
          rest := tail.drop (8 * (4294967288 + size)) } := by
  rw [seek_mdat_loop_step st_size i _ _ _ _ _ hi
    (read_bits_nat_bits c 32 size _) (read_bits_nat_bits (c + 32) 32 type _)]
  have hs' : size % 2 ^ 32 = size := Nat.mod_eq_of_lt (by omega)
  rw [Nat.mod_eq_of_lt ht, hs', if_neg hm]
  have hoff : (size + 2 ^ 32 - 8) % 2 ^ 32 = 4294967288 + size := by omega
  rw [hoff]
  simp only [fseek_cur, Bitstream.mk.injEq]

theorem seek_mdat_result (self : decoders_ALACDecoder) :
    (ALACDecoder_seek_mdat self).1 =
      (seek_mdat_loop ((self.bitstream.consumed + self.bitstream.rest.length) / 8) 0
        self.bitstream).1 := by
  unfold ALACDecoder_seek_mdat
  rfl

theorem seek_mdat_result_on (file : List Bool)
    (channels bits_per_sample total_frames max_samples_per_frame : Int) :
    (ALACDecoder_seek_mdat (decoder_on (bs_open file) channels bits_per_sample total_frames
        max_samples_per_frame)).1 =
      (seek_mdat_loop (file.length / 8) 0 { consumed := 0, rest := file }).1 := by
  rw [seek_mdat_result]
  simp only [decoder_on, bs_open, Nat.zero_add]

/-- C11, at the failing input.  On a container without `mdat` whose only atom
declares the size 0, the scan does not return `ERROR`: `atom_size - 8` wraps
to 4294967288, the counter `i` is still 0 at the next pass while the cursor is
far past the end of the 16-byte file, and the call ends in the truncation
failure of the bit reader. -/
theorem seek_mdat_zero_size_atom :
    (∀ a ∈ zero_size_container, a.type ≠ 0x6D646174) ∧
    seek_mdat_loop 16 0 (bs_open (container_bits zero_size_container)) =
      seek_mdat_loop 16 (0 + 0)
        { consumed := 0 + 64 + 8 * (4294967288 + 0), rest := [] } ∧
    (ALACDecoder_seek_mdat
        (decoder_on (bs_open (container_bits zero_size_container)) 2 16 100 4096)).1 =
      .error .truncated ∧
    (ALACDecoder_seek_mdat
        (decoder_on (bs_open (container_bits zero_size_container)) 2 16 100 4096)).1 ≠
      .ok .ERROR := by
  have hfile : container_bits zero_size_container =
      nat_bits 32 0 ++ (nat_bits 32 0x66726565 ++ List.replicate 64 false) := by
    simp only [container_bits, zero_size_container, Atom.bits, List.append_nil]
  have hlen : (container_bits zero_size_container).length / 8 = 16 := by
    rw [hfile]
    simp only [List.length_append, length_nat_bits, List.length_replicate]
  have hstep := seek_mdat_loop_small_size 16 0 0 0 0x66726565 (List.replicate 64 false)
    (by decide) (by decide) (by decide) (by decide)
  have hdrop : (List.replicate 64 false).drop (8 * (4294967288 + 0)) = [] :=
    List.drop_eq_nil_of_le (by rw [List.length_replicate]; decide)
  rw [hdrop] at hstep
  have hseek : (ALACDecoder_seek_mdat
      (decoder_on (bs_open (container_bits zero_size_container)) 2 16 100 4096)).1 =
      .error .truncated := by
    rw [seek_mdat_result_on, hlen, hfile, hstep]
    exact seek_mdat_loop_short 16 (0 + 0) _ (by decide) (by simp)
  refine ⟨by decide, ?_, hseek, ?_⟩
  · simp only [bs_open]
    rw [hfile]
    exact hstep
  · rw [hseek]
    intro h
    cases h

/-- C12, at the failing inputs.  A `free` atom that declares the size 4 does
not stop the scan.  On a 24-byte file with an `mdat` atom right behind it the
scan goes on to a second pass and ends in the truncation failure of the bit
reader, not with `ERROR`; on a file that carries the `mdat` header
`2 ^ 32 - 4` bytes further, where the wrapped offset lands, the scan finds it
and returns `OK`. -/
theorem seek_mdat_small_size_atom :
    seek_mdat_loop 24 0 (bs_open small_size_file) =
      seek_mdat_loop 24 (0 + 4) { consumed := 0 + 64 + 8 * (4294967288 + 4), rest := [] } ∧
    (ALACDecoder_seek_mdat (decoder_on (bs_open small_size_file) 2 16 100 4096)).1 =
      .error .truncated ∧
    (ALACDecoder_seek_mdat (decoder_on (bs_open far_mdat_file) 2 16 100 4096)).1 =
      .ok .OK := by
  have hstep := seek_mdat_loop_small_size 24 0 0 4 0x66726565
    (nat_bits 32 16 ++ (nat_bits 32 0x6D646174 ++ nat_bits 64 0))
    (by decide) (by decide) (by decide) (by decide)
  have hdrop : (nat_bits 32 16 ++ (nat_bits 32 0x6D646174 ++ nat_bits 64 0)).drop
      (8 * (4294967288 + 4)) = [] :=
    List.drop_eq_nil_of_le (by
      simp only [List.length_append, length_nat_bits]
      decide)
  rw [hdrop] at hstep
  have hlen : small_size_file.length / 8 = 24 := by
    simp only [small_size_file, List.length_append, length_nat_bits]
  refine ⟨?_, ?_, ?_⟩
  · simp only [bs_open, small_size_file]
    exact hstep
  · rw [seek_mdat_result_on, hlen]
    simp only [small_size_file]
    rw [hstep]
    exact seek_mdat_loop_short 24 (0 + 4) _ (by decide) (by simp)
  · have hbits : far_mdat_file.length =
        32 + (32 + (8 * 4294967292 + (32 + (32 + 64)))) := by
      simp only [far_mdat_file, List.length_append, length_nat_bits, List.length_replicate]
    have hlen' : far_mdat_file.length / 8 = 4294967316 := by
      rw [hbits]
    have hfar := seek_mdat_loop_small_size 4294967316 0 0 4 0x66726565
      (List.replicate (8 * 4294967292) false ++
        (nat_bits 32 16 ++ (nat_bits 32 0x6D646174 ++ nat_bits 64 0)))
      (by decide) (by decide) (by decide) (by decide)
    have hland : (List.replicate (8 * 4294967292) false ++
        (nat_bits 32 16 ++ (nat_bits 32 0x6D646174 ++ nat_bits 64 0))).drop
        (8 * (4294967288 + 4)) =
        nat_bits 32 16 ++ (nat_bits 32 0x6D646174 ++ nat_bits 64 0) :=
      List.drop_left' (by rw [List.length_replicate])
    rw [hland] at hfar
    rw [seek_mdat_result_on, hlen']
    simp only [far_mdat_file]
    rw [hfar,
      seek_mdat_loop_step 4294967316 (0 + 4) _ _ _ _ _ (by decide)
        (read_bits_nat_bits _ 32 16 _) (read_bits_nat_bits _ 32 0x6D646174 _)]
    simp only [Nat.reducePow, Nat.reduceMod, if_true]

/-- Witness for C18: the stereo frame once with channel field 1, reserved bits
0 and wasted-bits code 0, once with 7, all ones and 3. -/
theorem read_ignores_unused_header_fields_witness :
    (nat_bits 3 1).length = 3 ∧ (nat_bits 16 0).length = 16 ∧ (nat_bits 2 0).length = 2 ∧
    (nat_bits 3 7).length = 3 ∧ (nat_bits 16 65535).length = 16 ∧
    (nat_bits 2 3).length = 2 ∧
    (if true then 32 else 0) ≤ frame_example_payload.length ∧
    1 ≤ (decoder_on frame_example 2 16 100 4096).total_frames ∧
    ALACDecoder_read
        (with_stream (decoder_on frame_example 2 16 100 4096) 0
          (uncompressed_header (nat_bits 3 1) (nat_bits 16 0) true (nat_bits 2 0) ++
            frame_example_payload)) =
      ALACDecoder_read
        (with_stream (decoder_on frame_example 2 16 100 4096) 0
          (uncompressed_header (nat_bits 3 7) (nat_bits 16 65535) true (nat_bits 2 3) ++
            frame_example_payload)) :=
  ⟨rfl, rfl, rfl, rfl, rfl, rfl, by decide, by decide,
   (read_ignores_unused_header_fields (decoder_on frame_example 2 16 100 4096) 0
     (nat_bits 3 1) (nat_bits 16 0) (nat_bits 2 0)
     (nat_bits 3 7) (nat_bits 16 65535) (nat_bits 2 3) frame_example_payload true
     rfl rfl rfl rfl rfl rfl (by decide)).2.2.2 (by decide)⟩

/-! ## What becomes of a read that fails -/

end ALAC
